import Mathlib

/-!
Verification of the rule-based-profiler `Rule` orchestrator
(`great_expectations/rule_based_profiler/rule/rule.py`).

The embedding is a shallow, purely functional translation of the class
`Rule`.  The three builder capabilities (`DomainBuilder`,
`ParameterBuilder`, `ExpectationConfigurationBuilder`) are function-valued
records; an invocation that raises a Python exception is modelled as an
`Except.error` result.  `Rule.generate` is translated as explicit state
passing over the internal parameter map `_parameters`, and additionally
returns the chronological trace of builder invocations (each event records
the exact arguments the Python code passes) so that temporal claims about
execution order can be stated.  The `copy.deepcopy` in the property
`Rule.parameters` is analysed twice: value-wise in the pure model (where a
deep copy is the identity) and reference-wise in a small heap model at the
end of the definitions, which distinguishes fresh allocation from
aliasing.
-/

/-- A data domain.  `Rule.generate` consumes only the stable identifier
`domain.id`; the remaining `Domain` attributes live outside `src/`. -/
structure Domain where
  id : String
deriving DecidableEq, Repr

/-- Modelled from the spec: the internals of `ParameterContainer` are not
under `src/`.  Per the spec it is a per-domain store of named parameter
values; `rule.py` itself only constructs `ParameterContainer(parameter_nodes=None)`,
so the model keeps the single `parameter_nodes` field, abstracting node
values as `Nat`-valued named entries. -/
structure ParameterContainer where
  parameter_nodes : Option (List (String × Nat))
deriving DecidableEq, Repr

/-- Modelled from the spec: `ExpectationConfiguration` is not under `src/`.
Per the spec it is an assertion type identifier plus keyword arguments;
`Rule.generate` never inspects it, it only appends values produced by the
configuration builders. -/
structure ExpectationConfiguration where
  expectation_type : String
  kwargs : List (String × Nat)
deriving DecidableEq, Repr

/-- Python exceptions that can escape `Rule.generate`:
`attributeError` models attribute access on `None`
(`self._domain_builder.get_domains` when the field is `None`),
`typeError` models iterating `None`
(`for b in self._parameter_builders` when the field is `None`),
`builderFailure` models an exception raised inside a builder. -/
inductive RuleError where
  | attributeError (attr : String)
  | typeError (msg : String)
  | builderFailure (msg : String)
deriving DecidableEq, Repr

/-- The type of `Rule._parameters`: a Python dict from domain id to
`ParameterContainer`, modelled as an insertion-ordered association list. -/
abbrev ParamsMap := List (String × ParameterContainer)

/-- Dict lookup: first binding of the key (our maps never hold duplicate
keys, dicts cannot). -/
def lookupKey : List (String × α) → String → Option α
  | [], _ => none
  | (k', v) :: rest, k => if k' = k then some v else lookupKey rest k

/-- Python dict assignment `d[k] = v`: update in place if the key exists
(keeping its position), otherwise append, preserving insertion order. -/
def dictSet : List (String × α) → String → α → List (String × α)
  | [], k, v => [(k, v)]
  | (k', v') :: rest, k, v =>
      if k' = k then (k, v) :: rest else (k', v') :: dictSet rest k v

/-- `DomainBuilder.get_domains(variables)`: produces the ordered list of
domains, or raises. -/
structure DomainBuilder where
  get_domains : ParameterContainer → Except RuleError (List Domain)

/-- `ParameterBuilder.build_parameters(parameter_container, domain, variables, parameters)`:
mutates the current domain's container (modelled as returning its new
value), or raises.  The `parameters` argument is the snapshot
`self.parameters` of the cross-domain map. -/
structure ParameterBuilder where
  name : String
  build_parameters :
    ParameterContainer → Domain → ParameterContainer → ParamsMap →
      Except RuleError ParameterContainer

/-- `ExpectationConfigurationBuilder.build_expectation_configuration(domain, variables, parameters)`:
emits one configuration, or raises. -/
structure ExpectationConfigurationBuilder where
  expectation_type : String
  build_expectation_configuration :
    Domain → ParameterContainer → ParamsMap →
      Except RuleError ExpectationConfiguration

/-- The `Rule` instance state set up by `Rule.__init__`.  Of the parent
`RuleBasedProfiler` object only its `variables` attribute is ever read by
this class (`self.rule_based_profiler.variables`), so the back reference is
projected to that attribute.  The three builder fields keep the
constructor's `Optional` typing: all default to `None`.  `_parameters`
starts as the empty dict `{}`. -/
structure Rule where
  rule_based_profiler_variables : ParameterContainer
  name : String
  domain_builder : Option DomainBuilder
  parameter_builders : Option (List ParameterBuilder)
  expectation_configuration_builders : Option (List ExpectationConfigurationBuilder)
  _parameters : ParamsMap

/-- The property `Rule.parameters`, value-wise: `copy.deepcopy(self._parameters)`
returns a map equal in value to the internal state.  In the pure model a
deep copy is the identity on values; the reference-level copy semantics
(fresh allocation, isolation from caller mutation) is verified separately
in the heap model below. -/
def Rule.parameters (rule : Rule) : ParamsMap :=
  rule._parameters

/-- The `variables` resolution at the top of `Rule.generate`:
`if variables is None: variables = self.rule_based_profiler.variables`. -/
def resolveVariables (rule : Rule) (vars? : Option ParameterContainer) :
    ParameterContainer :=
  match vars? with
  | none => rule.rule_based_profiler_variables
  | some v => v

/-- One observable builder invocation performed by `Rule.generate`, with
the exact arguments the Python code passes at that point.  `dIdx` is the
position of the current domain in the list returned by `get_domains`;
`bIdx` is the position of the invoked builder in the rule's declared
builder list. -/
inductive Event where
  | domainsCall (db : DomainBuilder) (vars : ParameterContainer)
  | paramCall (dIdx bIdx : Nat) (pb : ParameterBuilder)
      (container : ParameterContainer) (domain : Domain)
      (vars : ParameterContainer) (params : ParamsMap)
  | configCall (dIdx bIdx : Nat) (ecb : ExpectationConfigurationBuilder)
      (domain : Domain) (vars : ParameterContainer) (params : ParamsMap)

/-- Replays the builder invocation an event records, keeping only success
or the raised error. -/
def Event.eval : Event → Except RuleError Unit
  | .domainsCall db v => (db.get_domains v).map fun _ => ()
  | .paramCall _ _ pb c dom v m => (pb.build_parameters c dom v m).map fun _ => ()
  | .configCall _ _ ecb dom v m =>
      (ecb.build_expectation_configuration dom v m).map fun _ => ()

/-- The variables argument an event records (every invocation in
`Rule.generate` receives `variables`). -/
def eventVariables : Event → ParameterContainer
  | .domainsCall _ v => v
  | .paramCall _ _ _ _ _ v _ => v
  | .configCall _ _ _ _ v _ => v

/-- The domain a builder invocation is for (`none` for domain discovery). -/
def eventDomain : Event → Option Domain
  | .domainsCall _ _ => none
  | .paramCall _ _ _ _ dom _ _ => some dom
  | .configCall _ _ _ dom _ _ => some dom

/-- The `parameters` snapshot an event records (`[]` for domain
discovery, which receives none). -/
def eventParams : Event → ParamsMap
  | .domainsCall _ _ => []
  | .paramCall _ _ _ _ _ _ m => m
  | .configCall _ _ _ _ _ m => m

/-- The inner loop `for parameter_builder in self._parameter_builders`:
each builder is handed the current domain's container (mutable, so its
result value also replaces the map entry `self._parameters[domain.id]`,
which aliases the container), the domain, the variables, and the snapshot
`parameters=self.parameters` taken at call time. -/
def runParamBuilders (pbs : List ParameterBuilder) (dIdx bIdx : Nat)
    (domain : Domain) (vars container : ParameterContainer)
    (params : ParamsMap) :
    Except RuleError ParameterContainer × ParamsMap × List Event :=
  match pbs with
  | [] => (.ok container, params, [])
  | pb :: rest =>
      let ev := Event.paramCall dIdx bIdx pb container domain vars params
      match pb.build_parameters container domain vars params with
      | .error e => (.error e, params, [ev])
      | .ok c' =>
          let out := runParamBuilders rest dIdx (bIdx + 1) domain vars c'
            (dictSet params domain.id c')
          (out.1, out.2.1, ev :: out.2.2)

/-- The inner loop `for expectation_configuration_builder in self._expectation_configuration_builders`:
each builder is handed the domain, the variables, and the snapshot
`parameters=self.parameters` (the map no longer changes during this loop),
and its configuration is appended to the result list. -/
def runConfigBuilders (ecbs : List ExpectationConfigurationBuilder)
    (dIdx bIdx : Nat) (domain : Domain) (vars : ParameterContainer)
    (params : ParamsMap) :
    Except RuleError (List ExpectationConfiguration) × List Event :=
  match ecbs with
  | [] => (.ok [], [])
  | ecb :: rest =>
      let ev := Event.configCall dIdx bIdx ecb domain vars params
      match ecb.build_expectation_configuration domain vars params with
      | .error e => (.error e, [ev])
      | .ok cfg =>
          let out := runConfigBuilders rest dIdx (bIdx + 1) domain vars params
          (out.1.map (cfg :: ·), ev :: out.2)

/-- The outer loop `for domain in domains` of `Rule.generate`.  Per domain:
allocate `ParameterContainer(parameter_nodes=None)`, register it via
`self._parameters[domain.id] = parameter_container` (before any builder
runs), then run the parameter-builder loop, then the
configuration-builder loop.  Iterating a `None` builder list raises
`TypeError` at the loop head, after the registration. -/
def runDomains (pbs? : Option (List ParameterBuilder))
    (ecbs? : Option (List ExpectationConfigurationBuilder))
    (domains : List Domain) (dIdx : Nat) (vars : ParameterContainer)
    (params : ParamsMap) :
    Except RuleError (List ExpectationConfiguration) × ParamsMap × List Event :=
  match domains with
  | [] => (.ok [], params, [])
  | domain :: rest =>
      let container : ParameterContainer := ⟨none⟩
      let params0 := dictSet params domain.id container
      match pbs? with
      | none => (.error (.typeError "NoneType object is not iterable"), params0, [])
      | some pbs =>
          match runParamBuilders pbs dIdx 0 domain vars container params0 with
          | (.error e, params1, evs1) => (.error e, params1, evs1)
          | (.ok _, params1, evs1) =>
              match ecbs? with
              | none =>
                  (.error (.typeError "NoneType object is not iterable"), params1, evs1)
              | some ecbs =>
                  match runConfigBuilders ecbs dIdx 0 domain vars params1 with
                  | (.error e, evs2) => (.error e, params1, evs1 ++ evs2)
                  | (.ok cfgs, evs2) =>
                      let out := runDomains pbs? ecbs? rest (dIdx + 1) vars params1
                      (out.1.map (cfgs ++ ·), out.2.1, evs1 ++ evs2 ++ out.2.2)

/-- `Rule.generate(variables=None)`: resolve `variables`, call
`self._domain_builder.get_domains(variables=variables)` (attribute access
on `None` raises), then run the per-domain loop.  Returns the result (the
configuration list on full success, the propagated exception otherwise),
the post-call `Rule` state, and the invocation trace. -/
def Rule.generate (rule : Rule) (vars? : Option ParameterContainer) :
    Except RuleError (List ExpectationConfiguration) × Rule × List Event :=
  let vars := resolveVariables rule vars?
  match rule.domain_builder with
  | none => (.error (.attributeError "get_domains"), rule, [])
  | some db =>
      match db.get_domains vars with
      | .error e => (.error e, rule, [Event.domainsCall db vars])
      | .ok domains =>
          let out := runDomains rule.parameter_builders
            rule.expectation_configuration_builders domains 0 vars
            rule._parameters
          (out.1, { rule with _parameters := out.2.1 },
            Event.domainsCall db vars :: out.2.2)

/-- The per-invocation shape of an event: which loop, for which domain
position, at which builder position.  Plain data, so traces can be
compared up to shape decidably. -/
inductive EventShape where
  | domainsShape : EventShape
  | paramShape (dIdx bIdx : Nat) : EventShape
  | configShape (dIdx bIdx : Nat) : EventShape
deriving DecidableEq, Repr

/-- Shape projection of an event. -/
def Event.shape : Event → EventShape
  | .domainsCall _ _ => .domainsShape
  | .paramCall dIdx bIdx _ _ _ _ _ => .paramShape dIdx bIdx
  | .configCall dIdx bIdx _ _ _ _ => .configShape dIdx bIdx

/-- Expected shapes of one domain's parameter-builder loop: builders
`bIdx, bIdx+1, …` in declared order. -/
def paramShapes (dIdx : Nat) : Nat → Nat → List EventShape
  | _, 0 => []
  | bIdx, n + 1 => .paramShape dIdx bIdx :: paramShapes dIdx (bIdx + 1) n

/-- Expected shapes of one domain's configuration-builder loop. -/
def configShapes (dIdx : Nat) : Nat → Nat → List EventShape
  | _, 0 => []
  | bIdx, n + 1 => .configShape dIdx bIdx :: configShapes dIdx (bIdx + 1) n

/-- Expected shapes of a full successful run over `n` domains starting at
domain position `dIdx`, with `pn` parameter builders and `cn`
configuration builders: for each domain, first all parameter builders in
order, then all configuration builders in order. -/
def domainShapes (pn cn : Nat) : Nat → Nat → List EventShape
  | _, 0 => []
  | dIdx, n + 1 =>
      paramShapes dIdx 0 pn ++ configShapes dIdx 0 cn ++ domainShapes pn cn (dIdx + 1) n

/-- The snapshot passed to a builder invocation contains an entry for the
invocation's own domain and for every domain at an earlier or equal
position in the discovered domain list. -/
def eventSnapshotHasIds (doms : List Domain) : Event → Prop
  | .domainsCall _ _ => True
  | .paramCall dIdx _ _ _ dom _ m =>
      (lookupKey m dom.id).isSome = true ∧
      ∀ d ∈ doms.take (dIdx + 1), (lookupKey m d.id).isSome = true
  | .configCall dIdx _ _ dom _ m =>
      (lookupKey m dom.id).isSome = true ∧
      ∀ d ∈ doms.take (dIdx + 1), (lookupKey m d.id).isSome = true

/-- The first parameter builder of each domain observes the freshly
allocated empty container, already registered under the domain's id. -/
def eventFreshAtStart : Event → Prop
  | .paramCall _ 0 _ c dom _ m =>
      c = ⟨none⟩ ∧ lookupKey m dom.id = some ⟨none⟩
  | _ => True

/-- One domain's result block matches the declared configuration-builder
list: element `j` is the successful output of builder `j` applied to this
domain, the run's variables and this domain's snapshot, in declared
order. -/
def blockMatchesBuilders : List ExpectationConfigurationBuilder → Domain →
    ParameterContainer → ParamsMap → List ExpectationConfiguration → Prop
  | [], _, _, _, [] => True
  | ecb :: ecbs, dom, v, m, cfg :: block =>
      ecb.build_expectation_configuration dom v m = .ok cfg ∧
      blockMatchesBuilders ecbs dom v m block
  | _, _, _, _, _ => False

/-- The result blocks align one-to-one with the discovered domains, in
order: block `k` is domain `k`'s block and matches the builder list
under domain `k`'s snapshot `ms k`. -/
def blocksMatchDomains (ecbs : List ExpectationConfigurationBuilder)
    (v : ParameterContainer) :
    List Domain → List (List ExpectationConfiguration) → List ParamsMap → Prop
  | [], [], [] => True
  | dom :: doms, block :: blocks, m :: ms =>
      blockMatchesBuilders ecbs dom v m block ∧
      blocksMatchDomains ecbs v doms blocks ms
  | _, _, _ => False

/-! ### Heap model of `Rule.parameters`

The property `Rule.parameters` executes `return copy.deepcopy(self._parameters)`.
Value-wise a deep copy is the identity; what the deep copy changes is
object identity.  To state claim C1 (callers mutating the returned
structure can never change the rule's internal state) we model the
`ParameterContainer` objects of the map as cells of a heap addressed by
natural numbers, the map itself as an association list of references, and
`copy.deepcopy` as recursive fresh allocation. -/

/-- A heap of `ParameterContainer` objects; a reference is an index into
`cells`. -/
structure PHeap where
  cells : List ParameterContainer
deriving DecidableEq, Repr

/-- Dereference. -/
def PHeap.get (h : PHeap) (r : Nat) : Option ParameterContainer :=
  h.cells[r]?

/-- In-place mutation of the object at reference `r` (the kind of write a
caller could attempt on a structure handed out by the accessor). -/
def PHeap.set (h : PHeap) (r : Nat) (c : ParameterContainer) : PHeap :=
  ⟨h.cells.set r c⟩

/-- Allocation of a fresh object, returning the new heap and the fresh
reference. -/
def PHeap.alloc (h : PHeap) (c : ParameterContainer) : PHeap × Nat :=
  (⟨h.cells ++ [c]⟩, h.cells.length)

/-- The reference-level representation of `Rule._parameters`: domain id to
object reference. -/
abbrev RefMap := List (String × Nat)

/-- `copy.deepcopy` over the parameter map: a fresh container object is
allocated for every entry, holding the value of the original object; the
copied map holds only the fresh references. -/
def deepcopyRefMap (h : PHeap) : RefMap → PHeap × RefMap
  | [] => (h, [])
  | (k, r) :: rest =>
      let a := PHeap.alloc h ((PHeap.get h r).getD ⟨none⟩)
      let out := deepcopyRefMap a.1 rest
      (out.1, (k, a.2) :: out.2)

/-- The property `Rule.parameters` at the reference level:
`return copy.deepcopy(self._parameters)`. -/
def parametersAccessor (h : PHeap) (m : RefMap) : PHeap × RefMap :=
  deepcopyRefMap h m

/-- The value a reference map denotes: each entry resolved through the
heap.  Two maps denote the same association of domain ids to container
values exactly when their `resolveMap` images agree. -/
def resolveMap (h : PHeap) (m : RefMap) : List (String × Option ParameterContainer) :=
  m.map fun p => (p.1, PHeap.get h p.2)

/-! ### Concrete instances used by witnesses and counterexamples -/

/-- Empty variables container. -/
def vEmpty : ParameterContainer := ⟨none⟩

/-- First test domain. -/
def dA : Domain := ⟨"dA"⟩

/-- Second test domain. -/
def dB : Domain := ⟨"dB"⟩

/-- Domain builder returning the two test domains. -/
def dbTwo : DomainBuilder := ⟨fun _ => .ok [dA, dB]⟩

/-- Domain builder returning no domains. -/
def dbEmpty : DomainBuilder := ⟨fun _ => .ok []⟩

/-- Domain builder whose discovery raises. -/
def dbFail : DomainBuilder := ⟨fun _ => .error (.builderFailure "introspection failed")⟩

/-- Parameter builder writing the constant entry `x = 1`. -/
def pbConst : ParameterBuilder :=
  ⟨"pbConst", fun _c _d _v _m => .ok ⟨some [("x", 1)]⟩⟩

/-- Parameter builder that raises on domain `dB` and writes `x = 1`
elsewhere. -/
def pbFailOnB : ParameterBuilder :=
  ⟨"pbFailOnB", fun _c d _v _m =>
    if d.id = "dB" then .error (.builderFailure "boom") else .ok ⟨some [("x", 1)]⟩⟩

/-- Parameter builder sensitive to the cross-domain snapshot: on domain
`dA` it records whether the snapshot already holds an entry for `dB`. -/
def pbSense : ParameterBuilder :=
  ⟨"pbSense", fun _c d _v m =>
    .ok ⟨some [("x", if (lookupKey m "dB").isSome ∧ d.id = "dA" then 1 else 0)]⟩⟩

/-- Reads parameter `x` of the given domain out of a snapshot. -/
def readX (m : ParamsMap) (domId : String) : Nat :=
  match lookupKey m domId with
  | some c =>
      match c.parameter_nodes with
      | some ns => (lookupKey ns "x").getD 0
      | none => 0
  | none => 0

/-- Configuration builder emitting the domain id as its column argument. -/
def ecbConst : ExpectationConfigurationBuilder :=
  ⟨"expect_column_values_to_not_be_null", fun d _v _m => .ok ⟨"expect_column_values_to_not_be_null", [("column_len", d.id.length)]⟩⟩

/-- Configuration builder exposing the current domain's parameter `x`. -/
def ecbReadX : ExpectationConfigurationBuilder :=
  ⟨"expect_x", fun d _v m => .ok ⟨"expect_x", [("x", readX m d.id)]⟩⟩

/-- A fully supplied rule whose builders ignore the snapshot. -/
def ruleOK : Rule :=
  { rule_based_profiler_variables := vEmpty
    name := "ruleOK"
    domain_builder := some dbTwo
    parameter_builders := some [pbConst]
    expectation_configuration_builders := some [ecbConst]
    _parameters := [] }

/-- A rule whose parameter builder raises on the second domain. -/
def ruleFail : Rule :=
  { rule_based_profiler_variables := vEmpty
    name := "ruleFail"
    domain_builder := some dbTwo
    parameter_builders := some [pbFailOnB]
    expectation_configuration_builders := some [ecbConst]
    _parameters := [] }

/-- A rule whose domain discovery raises. -/
def ruleDbFail : Rule :=
  { rule_based_profiler_variables := vEmpty
    name := "ruleDbFail"
    domain_builder := some dbFail
    parameter_builders := some [pbConst]
    expectation_configuration_builders := some [ecbConst]
    _parameters := [] }

/-- A rule with snapshot-sensitive builders, exposing the persistence of
`_parameters` across `generate` calls. -/
def ruleSense : Rule :=
  { rule_based_profiler_variables := vEmpty
    name := "ruleSense"
    domain_builder := some dbTwo
    parameter_builders := some [pbSense]
    expectation_configuration_builders := some [ecbReadX]
    _parameters := [] }

/-- A rule left with the constructor defaults `parameter_builders=None`
and `expectation_configuration_builders=None`, but a domain builder that
discovers no domains. -/
def ruleNoneBuilders : Rule :=
  { rule_based_profiler_variables := vEmpty
    name := "ruleNoneBuilders"
    domain_builder := some dbEmpty
    parameter_builders := none
    expectation_configuration_builders := none
    _parameters := [] }

/-- Like `ruleNoneBuilders` but the domain builder discovers two
domains. -/
def ruleNoneBuildersTwo : Rule :=
  { rule_based_profiler_variables := vEmpty
    name := "ruleNoneBuildersTwo"
    domain_builder := some dbTwo
    parameter_builders := none
    expectation_configuration_builders := none
    _parameters := [] }

/-- The configuration list `ruleOK.generate` returns. -/
def wCfgs : List ExpectationConfiguration :=
  [⟨"expect_column_values_to_not_be_null", [("column_len", 2)]⟩,
   ⟨"expect_column_values_to_not_be_null", [("column_len", 2)]⟩]

/-- The list the first `generate` call on `ruleSense` returns. -/
def wFirst : List ExpectationConfiguration :=
  [⟨"expect_x", [("x", 0)]⟩, ⟨"expect_x", [("x", 0)]⟩]

/-- The list a second `generate` call on `ruleSense` returns. -/
def wSecond : List ExpectationConfiguration :=
  [⟨"expect_x", [("x", 1)]⟩, ⟨"expect_x", [("x", 0)]⟩]

/-- A third test domain with a longer id, so configurations emitted for
different domains are distinguishable. -/
def dLong : Domain := ⟨"dLong"⟩

/-- Domain builder returning `dA` then `dLong`. -/
def dbOrder : DomainBuilder := ⟨fun _ => .ok [dA, dLong]⟩

/-- A rule with two distinguishable domains and two configuration
builders, exercising domain-major, builder-minor output order. -/
def ruleOrder : Rule :=
  { rule_based_profiler_variables := vEmpty
    name := "ruleOrder"
    domain_builder := some dbOrder
    parameter_builders := some [pbConst]
    expectation_configuration_builders := some [ecbConst, ecbReadX]
    _parameters := [] }

/-- The configuration list `ruleOrder.generate` returns: domain `dA`'s two
configurations (one per builder, in declared order), then domain
`dLong`'s two. -/
def wOrderCfgs : List ExpectationConfiguration :=
  [⟨"expect_column_values_to_not_be_null", [("column_len", 2)]⟩,
   ⟨"expect_x", [("x", 1)]⟩,
   ⟨"expect_column_values_to_not_be_null", [("column_len", 5)]⟩,
   ⟨"expect_x", [("x", 1)]⟩]

/-- A one-object heap for exercising the accessor model. -/
def wHeap : PHeap := ⟨[⟨some [("x", 1)]⟩]⟩

/-- A one-entry reference map pointing at the only object of `wHeap`. -/
def wRefMap : RefMap := [("dA", 0)]

/-! ### Dictionary lemmas -/

theorem lookupKey_dictSet_self (m : List (String × α)) (k : String) (v : α) :
    lookupKey (dictSet m k v) k = some v := by
  induction m with
  | nil => simp [dictSet, lookupKey]
  | cons p rest ih =>
      obtain ⟨k', v'⟩ := p
      by_cases h : k' = k
      · simp [dictSet, h, lookupKey]
      · simp [dictSet, h, lookupKey, ih]

theorem lookupKey_dictSet_ne (m : List (String × α)) (k k' : String) (v : α)
    (h : k' ≠ k) : lookupKey (dictSet m k v) k' = lookupKey m k' := by
  have hkk' : ¬k = k' := fun hh => h (Eq.symm hh)
  induction m with
  | nil =>
      simp only [dictSet, lookupKey]
      rw [if_neg hkk']
  | cons p rest ih =>
      obtain ⟨k'', v''⟩ := p
      by_cases hk : k'' = k
      · subst hk
        simp only [dictSet, if_pos rfl, lookupKey]
        rw [if_neg hkk', if_neg hkk']
      · simp only [dictSet, if_neg hk, lookupKey]
        by_cases hk' : k'' = k'
        · rw [if_pos hk', if_pos hk']
        · rw [if_neg hk', if_neg hk']
          exact ih

theorem isSome_lookupKey_dictSet (m : List (String × α)) (k k' : String) (v : α)
    (h : (lookupKey m k').isSome = true) :
    (lookupKey (dictSet m k v) k').isSome = true := by
  by_cases hk : k' = k
  · subst hk; rw [lookupKey_dictSet_self]; rfl
  · rw [lookupKey_dictSet_ne m k k' v hk]; exact h

/-! ### Lemmas about the configuration-builder loop -/

theorem rcb_events (ecbs : List ExpectationConfigurationBuilder) (dIdx bIdx : Nat)
    (dom : Domain) (v : ParameterContainer) (p : ParamsMap) :
    ∀ ev ∈ (runConfigBuilders ecbs dIdx bIdx dom v p).2,
      eventParams ev = p ∧ eventVariables ev = v ∧ eventDomain ev = some dom ∧
      eventFreshAtStart ev := by
  induction ecbs generalizing bIdx with
  | nil => intro ev hev; simp [runConfigBuilders] at hev
  | cons ecb rest ih =>
      intro ev hev
      simp only [runConfigBuilders] at hev
      cases hb : ecb.build_expectation_configuration dom v p with
      | error e =>
          rw [hb] at hev
          simp only [List.mem_singleton] at hev
          subst hev
          exact ⟨rfl, rfl, rfl, trivial⟩
      | ok cfg =>
          rw [hb] at hev
          simp only [List.mem_cons] at hev
          rcases hev with rfl | hev
          · exact ⟨rfl, rfl, rfl, trivial⟩
          · exact ih (bIdx + 1) ev hev

theorem rcb_ok_length (ecbs : List ExpectationConfigurationBuilder) (dIdx bIdx : Nat)
    (dom : Domain) (v : ParameterContainer) (p : ParamsMap)
    (cfgs : List ExpectationConfiguration)
    (h : (runConfigBuilders ecbs dIdx bIdx dom v p).1 = .ok cfgs) :
    cfgs.length = ecbs.length := by
  induction ecbs generalizing bIdx cfgs with
  | nil =>
      simp only [runConfigBuilders] at h
      cases h
      rfl
  | cons ecb rest ih =>
      simp only [runConfigBuilders] at h
      cases hb : ecb.build_expectation_configuration dom v p with
      | error e => rw [hb] at h; cases h
      | ok cfg =>
          rw [hb] at h
          simp only at h
          cases hro : (runConfigBuilders rest dIdx (bIdx + 1) dom v p).1 with
          | error e => rw [hro] at h; cases h
          | ok cfgs' =>
              rw [hro] at h
              simp only [Except.map] at h
              cases h
              simp [ih (bIdx + 1) cfgs' hro]

theorem rcb_ok_shape (ecbs : List ExpectationConfigurationBuilder) (dIdx bIdx : Nat)
    (dom : Domain) (v : ParameterContainer) (p : ParamsMap)
    (cfgs : List ExpectationConfiguration)
    (h : (runConfigBuilders ecbs dIdx bIdx dom v p).1 = .ok cfgs) :
    ((runConfigBuilders ecbs dIdx bIdx dom v p).2).map Event.shape =
      configShapes dIdx bIdx ecbs.length := by
  induction ecbs generalizing bIdx cfgs with
  | nil => simp [runConfigBuilders, configShapes]
  | cons ecb rest ih =>
      cases hb : ecb.build_expectation_configuration dom v p with
      | error e =>
          simp only [runConfigBuilders, hb] at h
          cases h
      | ok cfg =>
          simp only [runConfigBuilders, hb] at h ⊢
          cases hro : (runConfigBuilders rest dIdx (bIdx + 1) dom v p).1 with
          | error e => rw [hro] at h; cases h
          | ok cfgs' =>
              simp [Event.shape, configShapes, ih (bIdx + 1) cfgs' hro]

theorem rcb_ok_eval (ecbs : List ExpectationConfigurationBuilder) (dIdx bIdx : Nat)
    (dom : Domain) (v : ParameterContainer) (p : ParamsMap)
    (cfgs : List ExpectationConfiguration)
    (h : (runConfigBuilders ecbs dIdx bIdx dom v p).1 = .ok cfgs) :
    ∀ ev ∈ (runConfigBuilders ecbs dIdx bIdx dom v p).2, Event.eval ev = .ok () := by
  induction ecbs generalizing bIdx cfgs with
  | nil => intro ev hev; simp [runConfigBuilders] at hev
  | cons ecb rest ih =>
      intro ev hev
      simp only [runConfigBuilders] at h hev
      cases hb : ecb.build_expectation_configuration dom v p with
      | error e => rw [hb] at h; cases h
      | ok cfg =>
          rw [hb] at h hev
          simp only at h
          cases hro : (runConfigBuilders rest dIdx (bIdx + 1) dom v p).1 with
          | error e => rw [hro] at h; cases h
          | ok cfgs' =>
              simp only [List.mem_cons] at hev
              rcases hev with rfl | hev
              · simp [Event.eval, hb, Except.map]
              · exact ih (bIdx + 1) cfgs' hro ev hev

theorem rcb_error_split (ecbs : List ExpectationConfigurationBuilder) (dIdx bIdx : Nat)
    (dom : Domain) (v : ParameterContainer) (p : ParamsMap) (e : RuleError)
    (h : (runConfigBuilders ecbs dIdx bIdx dom v p).1 = .error e) :
    ∃ pre lev, (runConfigBuilders ecbs dIdx bIdx dom v p).2 = pre ++ [lev] ∧
      (∀ ev ∈ pre, Event.eval ev = .ok ()) ∧ Event.eval lev = .error e := by
  induction ecbs generalizing bIdx with
  | nil => simp [runConfigBuilders] at h
  | cons ecb rest ih =>
      cases hb : ecb.build_expectation_configuration dom v p with
      | error e' =>
          simp only [runConfigBuilders, hb] at h ⊢
          cases h
          exact ⟨[], Event.configCall dIdx bIdx ecb dom v p, by simp, by simp,
            by simp [Event.eval, hb, Except.map]⟩
      | ok cfg =>
          simp only [runConfigBuilders, hb] at h ⊢
          cases hro : (runConfigBuilders rest dIdx (bIdx + 1) dom v p).1 with
          | error e' =>
              rw [hro] at h
              simp only [Except.map] at h
              cases h
              obtain ⟨pre, lev, htr, hpre, hlev⟩ := ih (bIdx + 1) hro
              refine ⟨Event.configCall dIdx bIdx ecb dom v p :: pre, lev, by simp [htr], ?_, hlev⟩
              intro ev hev
              rcases List.mem_cons.mp hev with rfl | hev
              · simp [Event.eval, hb, Except.map]
              · exact hpre ev hev
          | ok cfgs' => rw [hro] at h; simp [Except.map] at h

/-! ### Lemmas about the parameter-builder loop -/

theorem rpb_events_misc (pbs : List ParameterBuilder) (dIdx bIdx : Nat)
    (dom : Domain) (v c : ParameterContainer) (p : ParamsMap) :
    ∀ ev ∈ (runParamBuilders pbs dIdx bIdx dom v c p).2.2,
      eventVariables ev = v ∧ eventDomain ev = some dom := by
  induction pbs generalizing bIdx c p with
  | nil => intro ev hev; simp [runParamBuilders] at hev
  | cons pb rest ih =>
      intro ev hev
      cases hb : pb.build_parameters c dom v p with
      | error e =>
          simp only [runParamBuilders, hb, List.mem_singleton] at hev
          subst hev
          exact ⟨rfl, rfl⟩
      | ok c' =>
          simp only [runParamBuilders, hb, List.mem_cons] at hev
          rcases hev with rfl | hev
          · exact ⟨rfl, rfl⟩
          · exact ih (bIdx + 1) c' (dictSet p dom.id c') ev hev

theorem rpb_events_preserve (pbs : List ParameterBuilder) (dIdx bIdx : Nat)
    (dom : Domain) (v c : ParameterContainer) (p : ParamsMap) (key : String)
    (hk : (lookupKey p key).isSome = true) :
    ∀ ev ∈ (runParamBuilders pbs dIdx bIdx dom v c p).2.2,
      (lookupKey (eventParams ev) key).isSome = true := by
  induction pbs generalizing bIdx c p with
  | nil => intro ev hev; simp [runParamBuilders] at hev
  | cons pb rest ih =>
      intro ev hev
      cases hb : pb.build_parameters c dom v p with
      | error e =>
          simp only [runParamBuilders, hb, List.mem_singleton] at hev
          subst hev
          exact hk
      | ok c' =>
          simp only [runParamBuilders, hb, List.mem_cons] at hev
          rcases hev with rfl | hev
          · exact hk
          · exact ih (bIdx + 1) c' (dictSet p dom.id c')
              (isSome_lookupKey_dictSet p dom.id key c' hk) ev hev

theorem rpb_result_preserve (pbs : List ParameterBuilder) (dIdx bIdx : Nat)
    (dom : Domain) (v c : ParameterContainer) (p : ParamsMap) (key : String)
    (hk : (lookupKey p key).isSome = true) :
    (lookupKey (runParamBuilders pbs dIdx bIdx dom v c p).2.1 key).isSome = true := by
  induction pbs generalizing bIdx c p with
  | nil => simpa [runParamBuilders] using hk
  | cons pb rest ih =>
      cases hb : pb.build_parameters c dom v p with
      | error e => simpa [runParamBuilders, hb] using hk
      | ok c' =>
          simp only [runParamBuilders, hb]
          exact ih (bIdx + 1) c' (dictSet p dom.id c')
            (isSome_lookupKey_dictSet p dom.id key c' hk)

theorem rpb_fresh (pbs : List ParameterBuilder) (dIdx bIdx : Nat)
    (dom : Domain) (v c : ParameterContainer) (p : ParamsMap)
    (hc : bIdx = 0 → c = ⟨none⟩ ∧ lookupKey p dom.id = some ⟨none⟩) :
    ∀ ev ∈ (runParamBuilders pbs dIdx bIdx dom v c p).2.2, eventFreshAtStart ev := by
  induction pbs generalizing bIdx c p with
  | nil => intro ev hev; simp [runParamBuilders] at hev
  | cons pb rest ih =>
      intro ev hev
      cases hb : pb.build_parameters c dom v p with
      | error e =>
          simp only [runParamBuilders, hb, List.mem_singleton] at hev
          subst hev
          cases bIdx with
          | zero =>
              obtain ⟨hc1, hc2⟩ := hc rfl
              subst hc1
              simp [eventFreshAtStart, hc2]
          | succ n => simp [eventFreshAtStart]
      | ok c' =>
          simp only [runParamBuilders, hb, List.mem_cons] at hev
          rcases hev with rfl | hev
          · cases bIdx with
            | zero =>
                obtain ⟨hc1, hc2⟩ := hc rfl
                subst hc1
                simp [eventFreshAtStart, hc2]
            | succ n => simp [eventFreshAtStart]
          · exact ih (bIdx + 1) c' (dictSet p dom.id c')
              (fun hz => absurd hz (Nat.succ_ne_zero bIdx)) ev hev

theorem rpb_ok_shape (pbs : List ParameterBuilder) (dIdx bIdx : Nat)
    (dom : Domain) (v c : ParameterContainer) (p : ParamsMap)
    (c' : ParameterContainer)
    (h : (runParamBuilders pbs dIdx bIdx dom v c p).1 = .ok c') :
    ((runParamBuilders pbs dIdx bIdx dom v c p).2.2).map Event.shape =
      paramShapes dIdx bIdx pbs.length := by
  induction pbs generalizing bIdx c p c' with
  | nil => simp [runParamBuilders, paramShapes]
  | cons pb rest ih =>
      cases hb : pb.build_parameters c dom v p with
      | error e =>
          simp only [runParamBuilders, hb] at h
          cases h
      | ok c'' =>
          simp only [runParamBuilders, hb] at h ⊢
          simp [Event.shape, paramShapes,
            ih (bIdx + 1) c'' (dictSet p dom.id c'') c' h]

theorem rpb_ok_eval (pbs : List ParameterBuilder) (dIdx bIdx : Nat)
    (dom : Domain) (v c : ParameterContainer) (p : ParamsMap)
    (c' : ParameterContainer)
    (h : (runParamBuilders pbs dIdx bIdx dom v c p).1 = .ok c') :
    ∀ ev ∈ (runParamBuilders pbs dIdx bIdx dom v c p).2.2, Event.eval ev = .ok () := by
  induction pbs generalizing bIdx c p c' with
  | nil => intro ev hev; simp [runParamBuilders] at hev
  | cons pb rest ih =>
      intro ev hev
      cases hb : pb.build_parameters c dom v p with
      | error e =>
          simp only [runParamBuilders, hb] at h
          cases h
      | ok c'' =>
          simp only [runParamBuilders, hb, List.mem_cons] at h hev
          rcases hev with rfl | hev
          · simp [Event.eval, hb, Except.map]
          · exact ih (bIdx + 1) c'' (dictSet p dom.id c'') c' h ev hev

theorem rpb_error_split (pbs : List ParameterBuilder) (dIdx bIdx : Nat)
    (dom : Domain) (v c : ParameterContainer) (p : ParamsMap) (e : RuleError)
    (h : (runParamBuilders pbs dIdx bIdx dom v c p).1 = .error e) :
    ∃ pre lev, (runParamBuilders pbs dIdx bIdx dom v c p).2.2 = pre ++ [lev] ∧
      (∀ ev ∈ pre, Event.eval ev = .ok ()) ∧ Event.eval lev = .error e := by
  induction pbs generalizing bIdx c p with
  | nil => simp [runParamBuilders] at h
  | cons pb rest ih =>
      cases hb : pb.build_parameters c dom v p with
      | error e' =>
          simp only [runParamBuilders, hb] at h ⊢
          cases h
          exact ⟨[], Event.paramCall dIdx bIdx pb c dom v p, by simp, by simp,
            by simp [Event.eval, hb, Except.map]⟩
      | ok c' =>
          simp only [runParamBuilders, hb] at h ⊢
          obtain ⟨pre, lev, htr, hpre, hlev⟩ :=
            ih (bIdx + 1) c' (dictSet p dom.id c') h
          refine ⟨Event.paramCall dIdx bIdx pb c dom v p :: pre, lev,
            by simp [htr], ?_, hlev⟩
          intro ev hev
          rcases List.mem_cons.mp hev with rfl | hev
          · simp [Event.eval, hb, Except.map]
          · exact hpre ev hev

theorem rpb_params_indep (pbs : List ParameterBuilder) (dIdx bIdx : Nat)
    (dom : Domain) (v c : ParameterContainer) (p p' : ParamsMap)
    (hpb : ∀ pb ∈ pbs, ∀ cc dd vv m m',
      pb.build_parameters cc dd vv m = pb.build_parameters cc dd vv m') :
    (runParamBuilders pbs dIdx bIdx dom v c p).1 =
      (runParamBuilders pbs dIdx bIdx dom v c p').1 := by
  induction pbs generalizing bIdx c p p' with
  | nil => simp [runParamBuilders]
  | cons pb rest ih =>
      have hsame : pb.build_parameters c dom v p' = pb.build_parameters c dom v p :=
        (hpb pb (List.mem_cons_self pb rest) c dom v p p').symm
      cases hb : pb.build_parameters c dom v p with
      | error e =>
          rw [hb] at hsame
          simp [runParamBuilders, hb, hsame]
      | ok c' =>
          rw [hb] at hsame
          simp only [runParamBuilders, hb, hsame]
          exact ih (bIdx + 1) c' (dictSet p dom.id c') (dictSet p' dom.id c')
            (fun pb' h' => hpb pb' (List.mem_cons_of_mem pb h'))

theorem rpb_snapshot (doms : List Domain) (pbs : List ParameterBuilder)
    (dIdx bIdx : Nat) (dom : Domain) (v c : ParameterContainer) (p : ParamsMap)
    (hown : (lookupKey p dom.id).isSome = true)
    (hall : ∀ d ∈ doms.take (dIdx + 1), (lookupKey p d.id).isSome = true) :
    ∀ ev ∈ (runParamBuilders pbs dIdx bIdx dom v c p).2.2,
      eventSnapshotHasIds doms ev := by
  induction pbs generalizing bIdx c p with
  | nil => intro ev hev; simp [runParamBuilders] at hev
  | cons pb rest ih =>
      intro ev hev
      cases hb : pb.build_parameters c dom v p with
      | error e =>
          simp only [runParamBuilders, hb, List.mem_singleton] at hev
          subst hev
          exact ⟨hown, hall⟩
      | ok c' =>
          simp only [runParamBuilders, hb, List.mem_cons] at hev
          rcases hev with rfl | hev
          · exact ⟨hown, hall⟩
          · exact ih (bIdx + 1) c' (dictSet p dom.id c')
              (isSome_lookupKey_dictSet p dom.id dom.id c' hown)
              (fun d hd => isSome_lookupKey_dictSet p dom.id _ c' (hall d hd))
              ev hev

theorem rcb_snapshot (doms : List Domain) (ecbs : List ExpectationConfigurationBuilder)
    (dIdx bIdx : Nat) (dom : Domain) (v : ParameterContainer) (p : ParamsMap)
    (hown : (lookupKey p dom.id).isSome = true)
    (hall : ∀ d ∈ doms.take (dIdx + 1), (lookupKey p d.id).isSome = true) :
    ∀ ev ∈ (runConfigBuilders ecbs dIdx bIdx dom v p).2,
      eventSnapshotHasIds doms ev := by
  induction ecbs generalizing bIdx with
  | nil => intro ev hev; simp [runConfigBuilders] at hev
  | cons ecb rest ih =>
      intro ev hev
      cases hb : ecb.build_expectation_configuration dom v p with
      | error e =>
          simp only [runConfigBuilders, hb, List.mem_singleton] at hev
          subst hev
          exact ⟨hown, hall⟩
      | ok cfg =>
          simp only [runConfigBuilders, hb, List.mem_cons] at hev
          rcases hev with rfl | hev
          · exact ⟨hown, hall⟩
          · exact ih (bIdx + 1) ev hev

theorem rcb_params_indep (ecbs : List ExpectationConfigurationBuilder)
    (dIdx bIdx : Nat) (dom : Domain) (v : ParameterContainer) (p p' : ParamsMap)
    (hecb : ∀ ecb ∈ ecbs, ∀ dd vv m m',
      ecb.build_expectation_configuration dd vv m =
        ecb.build_expectation_configuration dd vv m') :
    (runConfigBuilders ecbs dIdx bIdx dom v p).1 =
      (runConfigBuilders ecbs dIdx bIdx dom v p').1 := by
  induction ecbs generalizing bIdx with
  | nil => simp [runConfigBuilders]
  | cons ecb rest ih =>
      have hsame : ecb.build_expectation_configuration dom v p' =
          ecb.build_expectation_configuration dom v p :=
        (hecb ecb (List.mem_cons_self ecb rest) dom v p p').symm
      cases hb : ecb.build_expectation_configuration dom v p with
      | error e =>
          rw [hb] at hsame
          simp [runConfigBuilders, hb, hsame]
      | ok cfg =>
          rw [hb] at hsame
          simp only [runConfigBuilders, hb, hsame]
          rw [ih (bIdx + 1) (fun ecb' h' => hecb ecb' (List.mem_cons_of_mem ecb h'))]

/-! ### Lemmas about the per-domain loop -/

theorem rd_result_preserve (pbs : List ParameterBuilder)
    (ecbs : List ExpectationConfigurationBuilder) (doms : List Domain)
    (dIdx : Nat) (v : ParameterContainer) (p : ParamsMap) (key : String)
    (hk : (lookupKey p key).isSome = true) :
    (lookupKey (runDomains (some pbs) (some ecbs) doms dIdx v p).2.1 key).isSome = true := by
  induction doms generalizing dIdx p with
  | nil => simpa [runDomains] using hk
  | cons d rest ih =>
      have hk0 : (lookupKey (dictSet p d.id ⟨none⟩) key).isSome = true :=
        isSome_lookupKey_dictSet p d.id key ⟨none⟩ hk
      rcases hrp : runParamBuilders pbs dIdx 0 d v ⟨none⟩ (dictSet p d.id ⟨none⟩)
        with ⟨r1, p1, tr1⟩
      have hk1 : (lookupKey p1 key).isSome = true := by
        have h := rpb_result_preserve pbs dIdx 0 d v ⟨none⟩ (dictSet p d.id ⟨none⟩) key hk0
        rw [hrp] at h
        exact h
      cases r1 with
      | error e => simp only [runDomains, hrp]; exact hk1
      | ok c' =>
          rcases hrc : runConfigBuilders ecbs dIdx 0 d v p1 with ⟨r2, tr2⟩
          cases r2 with
          | error e => simp only [runDomains, hrp, hrc]; exact hk1
          | ok cfgs => simp only [runDomains, hrp, hrc]; exact ih (dIdx + 1) p1 hk1

theorem rd_events_vars (pbs? : Option (List ParameterBuilder))
    (ecbs? : Option (List ExpectationConfigurationBuilder)) (doms : List Domain)
    (dIdx : Nat) (v : ParameterContainer) (p : ParamsMap) :
    ∀ ev ∈ (runDomains pbs? ecbs? doms dIdx v p).2.2,
      eventVariables ev = v := by
  induction doms generalizing dIdx p with
  | nil => intro ev hev; simp [runDomains] at hev
  | cons d rest ih =>
      intro ev hev
      cases pbs? with
      | none => simp [runDomains] at hev
      | some pbs =>
          rcases hrp : runParamBuilders pbs dIdx 0 d v ⟨none⟩ (dictSet p d.id ⟨none⟩)
            with ⟨r1, p1, tr1⟩
          have htr1 : ∀ ev ∈ tr1, eventVariables ev = v := by
            intro ev' hev'
            have h := rpb_events_misc pbs dIdx 0 d v ⟨none⟩ (dictSet p d.id ⟨none⟩) ev'
            rw [hrp] at h
            exact (h hev').1
          cases r1 with
          | error e =>
              simp only [runDomains, hrp] at hev
              exact htr1 ev hev
          | ok c' =>
              cases ecbs? with
              | none =>
                  simp only [runDomains, hrp] at hev
                  exact htr1 ev hev
              | some ecbs =>
                  rcases hrc : runConfigBuilders ecbs dIdx 0 d v p1 with ⟨r2, tr2⟩
                  have htr2 : ∀ ev ∈ tr2, eventVariables ev = v := by
                    intro ev' hev'
                    have h := rcb_events ecbs dIdx 0 d v p1 ev'
                    rw [hrc] at h
                    exact (h hev').2.1
                  cases r2 with
                  | error e =>
                      simp only [runDomains, hrp, hrc, List.mem_append] at hev
                      rcases hev with hev | hev
                      · exact htr1 ev hev
                      · exact htr2 ev hev
                  | ok cfgs =>
                      simp only [runDomains, hrp, hrc, List.mem_append] at hev
                      rcases hev with (hev | hev) | hev
                      · exact htr1 ev hev
                      · exact htr2 ev hev
                      · exact ih (dIdx + 1) p1 ev hev

theorem rd_fresh (pbs : List ParameterBuilder)
    (ecbs : List ExpectationConfigurationBuilder) (doms : List Domain)
    (dIdx : Nat) (v : ParameterContainer) (p : ParamsMap) :
    ∀ ev ∈ (runDomains (some pbs) (some ecbs) doms dIdx v p).2.2,
      eventFreshAtStart ev := by
  induction doms generalizing dIdx p with
  | nil => intro ev hev; simp [runDomains] at hev
  | cons d rest ih =>
      intro ev hev
      rcases hrp : runParamBuilders pbs dIdx 0 d v ⟨none⟩ (dictSet p d.id ⟨none⟩)
        with ⟨r1, p1, tr1⟩
      have htr1 : ∀ ev ∈ tr1, eventFreshAtStart ev := by
        intro ev' hev'
        have h := rpb_fresh pbs dIdx 0 d v ⟨none⟩ (dictSet p d.id ⟨none⟩)
          (fun _ => ⟨rfl, lookupKey_dictSet_self p d.id ⟨none⟩⟩) ev'
        rw [hrp] at h
        exact h hev'
      cases r1 with
      | error e =>
          simp only [runDomains, hrp] at hev
          exact htr1 ev hev
      | ok c' =>
          rcases hrc : runConfigBuilders ecbs dIdx 0 d v p1 with ⟨r2, tr2⟩
          have htr2 : ∀ ev ∈ tr2, eventFreshAtStart ev := by
            intro ev' hev'
            have h := rcb_events ecbs dIdx 0 d v p1 ev'
            rw [hrc] at h
            exact (h hev').2.2.2
          cases r2 with
          | error e =>
              simp only [runDomains, hrp, hrc, List.mem_append] at hev
              rcases hev with hev | hev
              · exact htr1 ev hev
              · exact htr2 ev hev
          | ok cfgs =>
              simp only [runDomains, hrp, hrc, List.mem_append] at hev
              rcases hev with (hev | hev) | hev
              · exact htr1 ev hev
              · exact htr2 ev hev
              · exact ih (dIdx + 1) p1 ev hev

theorem rd_event_domain_in_final (pbs : List ParameterBuilder)
    (ecbs : List ExpectationConfigurationBuilder) (doms : List Domain)
    (dIdx : Nat) (v : ParameterContainer) (p : ParamsMap) :
    ∀ ev ∈ (runDomains (some pbs) (some ecbs) doms dIdx v p).2.2,
      ∀ dom, eventDomain ev = some dom →
        (lookupKey (runDomains (some pbs) (some ecbs) doms dIdx v p).2.1 dom.id).isSome = true := by
  induction doms generalizing dIdx p with
  | nil => intro ev hev; simp [runDomains] at hev
  | cons d rest ih =>
      intro ev hev dom hdom
      rcases hrp : runParamBuilders pbs dIdx 0 d v ⟨none⟩ (dictSet p d.id ⟨none⟩)
        with ⟨r1, p1, tr1⟩
      have hd1 : (lookupKey p1 d.id).isSome = true := by
        have h := rpb_result_preserve pbs dIdx 0 d v ⟨none⟩ (dictSet p d.id ⟨none⟩) d.id
          (by rw [lookupKey_dictSet_self]; rfl)
        rw [hrp] at h
        exact h
      have htr1dom : ∀ ev' ∈ tr1, eventDomain ev' = some d := by
        intro ev' hev'
        have h := rpb_events_misc pbs dIdx 0 d v ⟨none⟩ (dictSet p d.id ⟨none⟩) ev'
        rw [hrp] at h
        exact (h hev').2
      cases r1 with
      | error e =>
          simp only [runDomains, hrp] at hev ⊢
          have := htr1dom ev hev
          rw [hdom] at this
          cases this
          exact hd1
      | ok c' =>
          rcases hrc : runConfigBuilders ecbs dIdx 0 d v p1 with ⟨r2, tr2⟩
          have htr2dom : ∀ ev' ∈ tr2, eventDomain ev' = some d := by
            intro ev' hev'
            have h := rcb_events ecbs dIdx 0 d v p1 ev'
            rw [hrc] at h
            exact (h hev').2.2.1
          cases r2 with
          | error e =>
              simp only [runDomains, hrp, hrc, List.mem_append] at hev ⊢
              rcases hev with hev | hev
              · have := htr1dom ev hev
                rw [hdom] at this
                cases this
                exact hd1
              · have := htr2dom ev hev
                rw [hdom] at this
                cases this
                exact hd1
          | ok cfgs =>
              simp only [runDomains, hrp, hrc, List.mem_append] at hev ⊢
              rcases hev with (hev | hev) | hev
              · have := htr1dom ev hev
                rw [hdom] at this
                cases this
                exact rd_result_preserve pbs ecbs rest (dIdx + 1) v p1 d.id hd1
              · have := htr2dom ev hev
                rw [hdom] at this
                cases this
                exact rd_result_preserve pbs ecbs rest (dIdx + 1) v p1 d.id hd1
              · exact ih (dIdx + 1) p1 ev hev dom hdom

theorem rd_ok_domains_ids (pbs : List ParameterBuilder)
    (ecbs : List ExpectationConfigurationBuilder) (doms : List Domain)
    (dIdx : Nat) (v : ParameterContainer) (p : ParamsMap)
    (cfgs : List ExpectationConfiguration)
    (h : (runDomains (some pbs) (some ecbs) doms dIdx v p).1 = .ok cfgs) :
    ∀ d ∈ doms,
      (lookupKey (runDomains (some pbs) (some ecbs) doms dIdx v p).2.1 d.id).isSome = true := by
  induction doms generalizing dIdx p cfgs with
  | nil => intro d hd; simp at hd
  | cons d rest ih =>
      intro d' hd'
      rcases hrp : runParamBuilders pbs dIdx 0 d v ⟨none⟩ (dictSet p d.id ⟨none⟩)
        with ⟨r1, p1, tr1⟩
      have hd1 : (lookupKey p1 d.id).isSome = true := by
        have hh := rpb_result_preserve pbs dIdx 0 d v ⟨none⟩ (dictSet p d.id ⟨none⟩) d.id
          (by rw [lookupKey_dictSet_self]; rfl)
        rw [hrp] at hh
        exact hh
      cases r1 with
      | error e => simp only [runDomains, hrp] at h; simp at h
      | ok c' =>
          rcases hrc : runConfigBuilders ecbs dIdx 0 d v p1 with ⟨r2, tr2⟩
          cases r2 with
          | error e => simp only [runDomains, hrp, hrc] at h; simp at h
          | ok cfgs1 =>
              simp only [runDomains, hrp, hrc] at h ⊢
              cases hro : (runDomains (some pbs) (some ecbs) rest (dIdx + 1) v p1).1 with
              | error e => rw [hro] at h; simp [Except.map] at h
              | ok cfgs2 =>
                  rcases List.mem_cons.mp hd' with rfl | hd'
                  · exact rd_result_preserve pbs ecbs rest (dIdx + 1) v p1 d'.id hd1
                  · exact ih (dIdx + 1) p1 cfgs2 hro d' hd'

theorem blocks_flatten_length (blocks : List (List ExpectationConfiguration))
    (m : Nat) (hall : ∀ b ∈ blocks, b.length = m) :
    blocks.flatten.length = blocks.length * m := by
  induction blocks with
  | nil => simp
  | cons b rest ih =>
      simp only [List.flatten_cons, List.length_append, List.length_cons]
      rw [hall b (List.mem_cons_self b rest),
        ih (fun b' h' => hall b' (List.mem_cons_of_mem b h'))]
      ring

theorem rd_ok_blocks (pbs : List ParameterBuilder)
    (ecbs : List ExpectationConfigurationBuilder) (doms : List Domain)
    (dIdx : Nat) (v : ParameterContainer) (p : ParamsMap)
    (cfgs : List ExpectationConfiguration)
    (h : (runDomains (some pbs) (some ecbs) doms dIdx v p).1 = .ok cfgs) :
    ∃ blocks : List (List ExpectationConfiguration),
      cfgs = blocks.flatten ∧ blocks.length = doms.length ∧
      ∀ b ∈ blocks, b.length = ecbs.length := by
  induction doms generalizing dIdx p cfgs with
  | nil =>
      simp only [runDomains] at h
      cases h
      exact ⟨[], rfl, rfl, by simp⟩
  | cons d rest ih =>
      rcases hrp : runParamBuilders pbs dIdx 0 d v ⟨none⟩ (dictSet p d.id ⟨none⟩)
        with ⟨r1, p1, tr1⟩
      cases r1 with
      | error e => simp only [runDomains, hrp] at h; simp at h
      | ok c' =>
          rcases hrc : runConfigBuilders ecbs dIdx 0 d v p1 with ⟨r2, tr2⟩
          cases r2 with
          | error e => simp only [runDomains, hrp, hrc] at h; simp at h
          | ok cfgs1 =>
              simp only [runDomains, hrp, hrc] at h
              cases hro : (runDomains (some pbs) (some ecbs) rest (dIdx + 1) v p1).1 with
              | error e => rw [hro] at h; simp [Except.map] at h
              | ok cfgs2 =>
                  rw [hro] at h
                  simp only [Except.map] at h
                  cases h
                  obtain ⟨blocks, hflat, hlen, hall⟩ := ih (dIdx + 1) p1 cfgs2 hro
                  have hlen1 : cfgs1.length = ecbs.length := by
                    apply rcb_ok_length ecbs dIdx 0 d v p1 cfgs1
                    rw [hrc]
                  refine ⟨cfgs1 :: blocks, ?_, by simp [hlen], ?_⟩
                  · simp [List.flatten_cons, hflat]
                  · intro b hb
                    rcases List.mem_cons.mp hb with rfl | hb
                    · exact hlen1
                    · exact hall b hb

theorem rd_ok_shape (pbs : List ParameterBuilder)
    (ecbs : List ExpectationConfigurationBuilder) (doms : List Domain)
    (dIdx : Nat) (v : ParameterContainer) (p : ParamsMap)
    (cfgs : List ExpectationConfiguration)
    (h : (runDomains (some pbs) (some ecbs) doms dIdx v p).1 = .ok cfgs) :
    ((runDomains (some pbs) (some ecbs) doms dIdx v p).2.2).map Event.shape =
      domainShapes pbs.length ecbs.length dIdx doms.length := by
  induction doms generalizing dIdx p cfgs with
  | nil => simp [runDomains, domainShapes]
  | cons d rest ih =>
      rcases hrp : runParamBuilders pbs dIdx 0 d v ⟨none⟩ (dictSet p d.id ⟨none⟩)
        with ⟨r1, p1, tr1⟩
      cases r1 with
      | error e => simp only [runDomains, hrp] at h; simp at h
      | ok c' =>
          have htr1 : tr1.map Event.shape = paramShapes dIdx 0 pbs.length := by
            have hh := rpb_ok_shape pbs dIdx 0 d v ⟨none⟩ (dictSet p d.id ⟨none⟩) c'
              (by rw [hrp])
            rw [hrp] at hh
            exact hh
          rcases hrc : runConfigBuilders ecbs dIdx 0 d v p1 with ⟨r2, tr2⟩
          cases r2 with
          | error e => simp only [runDomains, hrp, hrc] at h; simp at h
          | ok cfgs1 =>
              have htr2 : tr2.map Event.shape = configShapes dIdx 0 ecbs.length := by
                have hh := rcb_ok_shape ecbs dIdx 0 d v p1 cfgs1 (by rw [hrc])
                rw [hrc] at hh
                exact hh
              simp only [runDomains, hrp, hrc] at h ⊢
              cases hro : (runDomains (some pbs) (some ecbs) rest (dIdx + 1) v p1).1 with
              | error e => rw [hro] at h; simp [Except.map] at h
              | ok cfgs2 =>
                  simp only [List.map_append, htr1, htr2, domainShapes,
                    ih (dIdx + 1) p1 cfgs2 hro, List.append_assoc]

theorem rd_ok_eval (pbs : List ParameterBuilder)
    (ecbs : List ExpectationConfigurationBuilder) (doms : List Domain)
    (dIdx : Nat) (v : ParameterContainer) (p : ParamsMap)
    (cfgs : List ExpectationConfiguration)
    (h : (runDomains (some pbs) (some ecbs) doms dIdx v p).1 = .ok cfgs) :
    ∀ ev ∈ (runDomains (some pbs) (some ecbs) doms dIdx v p).2.2,
      Event.eval ev = .ok () := by
  induction doms generalizing dIdx p cfgs with
  | nil => intro ev hev; simp [runDomains] at hev
  | cons d rest ih =>
      intro ev hev
      rcases hrp : runParamBuilders pbs dIdx 0 d v ⟨none⟩ (dictSet p d.id ⟨none⟩)
        with ⟨r1, p1, tr1⟩
      cases r1 with
      | error e => simp only [runDomains, hrp] at h; simp at h
      | ok c' =>
          have htr1 : ∀ ev' ∈ tr1, Event.eval ev' = .ok () := by
            have hh := rpb_ok_eval pbs dIdx 0 d v ⟨none⟩ (dictSet p d.id ⟨none⟩) c'
              (by rw [hrp])
            rw [hrp] at hh
            exact hh
          rcases hrc : runConfigBuilders ecbs dIdx 0 d v p1 with ⟨r2, tr2⟩
          cases r2 with
          | error e => simp only [runDomains, hrp, hrc] at h; simp at h
          | ok cfgs1 =>
              have htr2 : ∀ ev' ∈ tr2, Event.eval ev' = .ok () := by
                have hh := rcb_ok_eval ecbs dIdx 0 d v p1 cfgs1 (by rw [hrc])
                rw [hrc] at hh
                exact hh
              simp only [runDomains, hrp, hrc] at h hev
              cases hro : (runDomains (some pbs) (some ecbs) rest (dIdx + 1) v p1).1 with
              | error e => rw [hro] at h; simp [Except.map] at h
              | ok cfgs2 =>
                  simp only [List.mem_append] at hev
                  rcases hev with (hev | hev) | hev
                  · exact htr1 ev hev
                  · exact htr2 ev hev
                  · exact ih (dIdx + 1) p1 cfgs2 hro ev hev

theorem rd_error_split (pbs : List ParameterBuilder)
    (ecbs : List ExpectationConfigurationBuilder) (doms : List Domain)
    (dIdx : Nat) (v : ParameterContainer) (p : ParamsMap) (e : RuleError)
    (h : (runDomains (some pbs) (some ecbs) doms dIdx v p).1 = .error e) :
    ∃ pre lev, (runDomains (some pbs) (some ecbs) doms dIdx v p).2.2 = pre ++ [lev] ∧
      (∀ ev ∈ pre, Event.eval ev = .ok ()) ∧ Event.eval lev = .error e := by
  induction doms generalizing dIdx p with
  | nil => simp [runDomains] at h
  | cons d rest ih =>
      rcases hrp : runParamBuilders pbs dIdx 0 d v ⟨none⟩ (dictSet p d.id ⟨none⟩)
        with ⟨r1, p1, tr1⟩
      cases r1 with
      | error e1 =>
          simp only [runDomains, hrp] at h ⊢
          injection h with h1
          subst h1
          obtain ⟨pre, lev, htr, hpre, hlev⟩ :=
            rpb_error_split pbs dIdx 0 d v ⟨none⟩ (dictSet p d.id ⟨none⟩) e1 (by rw [hrp])
          rw [hrp] at htr
          exact ⟨pre, lev, htr, hpre, hlev⟩
      | ok c' =>
          have htr1ok : ∀ ev' ∈ tr1, Event.eval ev' = .ok () := by
            have hh := rpb_ok_eval pbs dIdx 0 d v ⟨none⟩ (dictSet p d.id ⟨none⟩) c'
              (by rw [hrp])
            rw [hrp] at hh
            exact hh
          rcases hrc : runConfigBuilders ecbs dIdx 0 d v p1 with ⟨r2, tr2⟩
          cases r2 with
          | error e2 =>
              simp only [runDomains, hrp, hrc] at h ⊢
              injection h with h1
              subst h1
              obtain ⟨pre2, lev, htr, hpre, hlev⟩ :=
                rcb_error_split ecbs dIdx 0 d v p1 e2 (by rw [hrc])
              have htr2 : tr2 = pre2 ++ [lev] := by rw [hrc] at htr; exact htr
              refine ⟨tr1 ++ pre2, lev, ?_, ?_, hlev⟩
              · rw [htr2, List.append_assoc]
              · intro ev hev
                rcases List.mem_append.mp hev with hev | hev
                · exact htr1ok ev hev
                · exact hpre ev hev
          | ok cfgs1 =>
              have htr2ok : ∀ ev' ∈ tr2, Event.eval ev' = .ok () := by
                have hh := rcb_ok_eval ecbs dIdx 0 d v p1 cfgs1 (by rw [hrc])
                rw [hrc] at hh
                exact hh
              simp only [runDomains, hrp, hrc] at h ⊢
              cases hro : (runDomains (some pbs) (some ecbs) rest (dIdx + 1) v p1).1 with
              | ok cfgs2 => rw [hro] at h; simp [Except.map] at h
              | error e3 =>
                  rw [hro] at h
                  simp only [Except.map] at h
                  injection h with h1
                  subst h1
                  obtain ⟨pre3, lev, htr, hpre, hlev⟩ := ih (dIdx + 1) p1 hro
                  refine ⟨tr1 ++ tr2 ++ pre3, lev, ?_, ?_, hlev⟩
                  · rw [htr]
                    simp [List.append_assoc]
                  · intro ev hev
                    simp only [List.append_assoc, List.mem_append] at hev
                    rcases hev with hev | hev | hev
                    · exact htr1ok ev hev
                    · exact htr2ok ev hev
                    · exact hpre ev hev

theorem rd_params_indep (pbs : List ParameterBuilder)
    (ecbs : List ExpectationConfigurationBuilder) (doms : List Domain)
    (dIdx : Nat) (v : ParameterContainer) (p p' : ParamsMap)
    (hpb : ∀ pb ∈ pbs, ∀ cc dd vv m m',
      pb.build_parameters cc dd vv m = pb.build_parameters cc dd vv m')
    (hecb : ∀ ecb ∈ ecbs, ∀ dd vv m m',
      ecb.build_expectation_configuration dd vv m =
        ecb.build_expectation_configuration dd vv m') :
    (runDomains (some pbs) (some ecbs) doms dIdx v p).1 =
      (runDomains (some pbs) (some ecbs) doms dIdx v p').1 := by
  induction doms generalizing dIdx p p' with
  | nil => simp [runDomains]
  | cons d rest ih =>
      rcases hrp : runParamBuilders pbs dIdx 0 d v ⟨none⟩ (dictSet p d.id ⟨none⟩)
        with ⟨r1, p1, tr1⟩
      rcases hrp' : runParamBuilders pbs dIdx 0 d v ⟨none⟩ (dictSet p' d.id ⟨none⟩)
        with ⟨r1', p1', tr1'⟩
      have hr1 : r1 = r1' := by
        have hh := rpb_params_indep pbs dIdx 0 d v ⟨none⟩
          (dictSet p d.id ⟨none⟩) (dictSet p' d.id ⟨none⟩) hpb
        rw [hrp, hrp'] at hh
        exact hh
      subst hr1
      cases r1 with
      | error e => simp [runDomains, hrp, hrp']
      | ok c' =>
          rcases hrc : runConfigBuilders ecbs dIdx 0 d v p1 with ⟨r2, tr2⟩
          rcases hrc' : runConfigBuilders ecbs dIdx 0 d v p1' with ⟨r2', tr2'⟩
          have hr2 : r2 = r2' := by
            have hh := rcb_params_indep ecbs dIdx 0 d v p1 p1' hecb
            rw [hrc, hrc'] at hh
            exact hh
          subst hr2
          cases r2 with
          | error e => simp [runDomains, hrp, hrp', hrc, hrc']
          | ok cfgs1 =>
              simp only [runDomains, hrp, hrp', hrc, hrc']
              rw [ih (dIdx + 1) p1 p1']

theorem rd_snapshot (pbs : List ParameterBuilder)
    (ecbs : List ExpectationConfigurationBuilder) (doms : List Domain)
    (v : ParameterContainer) :
    ∀ rest dIdx p, rest = doms.drop dIdx →
      (∀ d ∈ doms.take dIdx, (lookupKey p d.id).isSome = true) →
      ∀ ev ∈ (runDomains (some pbs) (some ecbs) rest dIdx v p).2.2,
        eventSnapshotHasIds doms ev := by
  intro rest
  induction rest with
  | nil => intro dIdx p _ _ ev hev; simp [runDomains] at hev
  | cons d rest2 ih =>
      intro dIdx p hdrop hp ev hev
      have hidx : doms[dIdx]? = some d := by
        rw [← List.head?_drop, ← hdrop]
        rfl
      have htake : doms.take (dIdx + 1) = doms.take dIdx ++ [d] := by
        rw [List.take_succ, hidx]
        rfl
      have hdrop2 : rest2 = doms.drop (dIdx + 1) := by
        rw [← List.tail_drop, ← hdrop]
        rfl
      have hp0own :
          (lookupKey (dictSet p d.id (⟨none⟩ : ParameterContainer)) d.id).isSome = true := by
        rw [lookupKey_dictSet_self]
        rfl
      have hp0all : ∀ d' ∈ doms.take (dIdx + 1),
          (lookupKey (dictSet p d.id (⟨none⟩ : ParameterContainer)) d'.id).isSome = true := by
        intro d' hd'
        rw [htake] at hd'
        rcases List.mem_append.mp hd' with hd' | hd'
        · exact isSome_lookupKey_dictSet p d.id d'.id ⟨none⟩ (hp d' hd')
        · rcases List.mem_singleton.mp hd' with rfl
          exact hp0own
      rcases hrp : runParamBuilders pbs dIdx 0 d v ⟨none⟩ (dictSet p d.id ⟨none⟩)
        with ⟨r1, p1, tr1⟩
      have htr1 : ∀ ev' ∈ tr1, eventSnapshotHasIds doms ev' := by
        intro ev' hev'
        have hh := rpb_snapshot doms pbs dIdx 0 d v ⟨none⟩ (dictSet p d.id ⟨none⟩)
          hp0own hp0all ev'
        rw [hrp] at hh
        exact hh hev'
      have hp1own : (lookupKey p1 d.id).isSome = true := by
        have hh := rpb_result_preserve pbs dIdx 0 d v ⟨none⟩
          (dictSet p d.id ⟨none⟩) d.id hp0own
        rw [hrp] at hh
        exact hh
      have hp1all : ∀ d' ∈ doms.take (dIdx + 1), (lookupKey p1 d'.id).isSome = true := by
        intro d' hd'
        have hh := rpb_result_preserve pbs dIdx 0 d v ⟨none⟩
          (dictSet p d.id ⟨none⟩) d'.id (hp0all d' hd')
        rw [hrp] at hh
        exact hh
      cases r1 with
      | error e =>
          simp only [runDomains, hrp] at hev
          exact htr1 ev hev
      | ok c' =>
          rcases hrc : runConfigBuilders ecbs dIdx 0 d v p1 with ⟨r2, tr2⟩
          have htr2 : ∀ ev' ∈ tr2, eventSnapshotHasIds doms ev' := by
            intro ev' hev'
            have hh := rcb_snapshot doms ecbs dIdx 0 d v p1 hp1own hp1all ev'
            rw [hrc] at hh
            exact hh hev'
          cases r2 with
          | error e =>
              simp only [runDomains, hrp, hrc, List.mem_append] at hev
              rcases hev with hev | hev
              · exact htr1 ev hev
              · exact htr2 ev hev
          | ok cfgs1 =>
              simp only [runDomains, hrp, hrc, List.mem_append] at hev
              rcases hev with (hev | hev) | hev
              · exact htr1 ev hev
              · exact htr2 ev hev
              · exact ih (dIdx + 1) p1 hdrop2
                  (fun d' hd' => hp1all d' hd') ev hev

/-! ### Lemmas about the heap model of `copy.deepcopy` -/

theorem dcm_length (m : RefMap) (h : PHeap) :
    (deepcopyRefMap h m).1.cells.length = h.cells.length + m.length := by
  induction m generalizing h with
  | nil => simp [deepcopyRefMap]
  | cons q rest ih =>
      obtain ⟨k, r⟩ := q
      simp only [deepcopyRefMap, PHeap.alloc]
      rw [ih]
      simp only [List.length_append, List.length_cons, List.length_nil]
      omega

theorem dcm_get_old (m : RefMap) :
    ∀ (h : PHeap) (r : Nat), r < h.cells.length →
      PHeap.get (deepcopyRefMap h m).1 r = PHeap.get h r := by
  induction m with
  | nil => intro h r _; rfl
  | cons q rest ih =>
      obtain ⟨k, r'⟩ := q
      intro h r hr
      simp only [deepcopyRefMap, PHeap.alloc]
      rw [ih ⟨h.cells ++ [(PHeap.get h r').getD ⟨none⟩]⟩ r (by simp; omega)]
      simp only [PHeap.get]
      exact List.getElem?_append_left hr

theorem dcm_refs_fresh (m : RefMap) :
    ∀ (h : PHeap), ∀ q ∈ (deepcopyRefMap h m).2, h.cells.length ≤ q.2 := by
  induction m with
  | nil => intro h q hq; simp [deepcopyRefMap] at hq
  | cons q0 rest ih =>
      obtain ⟨k, r⟩ := q0
      intro h q hq
      simp only [deepcopyRefMap, PHeap.alloc, List.mem_cons] at hq
      rcases hq with rfl | hq
      · exact Nat.le_refl _
      · have hh := ih ⟨h.cells ++ [(PHeap.get h r).getD ⟨none⟩]⟩ q hq
        simp only [List.length_append, List.length_singleton] at hh
        omega

theorem resolveMap_ext (m : RefMap) (h h' : PHeap)
    (hg : ∀ q ∈ m, PHeap.get h q.2 = PHeap.get h' q.2) :
    resolveMap h m = resolveMap h' m := by
  induction m with
  | nil => rfl
  | cons q rest ih =>
      simp only [resolveMap, List.map_cons] at ih ⊢
      rw [hg q (List.mem_cons_self q rest),
        ih (fun q' hq' => hg q' (List.mem_cons_of_mem q hq'))]

theorem dcm_values (m : RefMap) :
    ∀ (h : PHeap), (∀ q ∈ m, q.2 < h.cells.length) →
      resolveMap (deepcopyRefMap h m).1 (deepcopyRefMap h m).2 = resolveMap h m := by
  induction m with
  | nil => intro h _; rfl
  | cons q rest ih =>
      obtain ⟨k, r⟩ := q
      intro h hvalid
      have hr : r < h.cells.length := hvalid (k, r) (List.mem_cons_self _ _)
      have hsome : PHeap.get h r = some (h.cells.get ⟨r, hr⟩) := by
        simp [PHeap.get, List.getElem?_eq_getElem hr]
      have hhead :
          PHeap.get (deepcopyRefMap ⟨h.cells ++ [(PHeap.get h r).getD ⟨none⟩]⟩ rest).1
            h.cells.length = PHeap.get h r := by
        rw [dcm_get_old rest ⟨h.cells ++ [(PHeap.get h r).getD ⟨none⟩]⟩
          h.cells.length (by simp), hsome]
        simp [PHeap.get]
      have htail :
          resolveMap (deepcopyRefMap ⟨h.cells ++ [(PHeap.get h r).getD ⟨none⟩]⟩ rest).1
            (deepcopyRefMap ⟨h.cells ++ [(PHeap.get h r).getD ⟨none⟩]⟩ rest).2 =
            resolveMap h rest := by
        rw [ih ⟨h.cells ++ [(PHeap.get h r).getD ⟨none⟩]⟩
          (fun q hq => by
            have hv := hvalid q (List.mem_cons_of_mem _ hq)
            simp
            omega)]
        apply resolveMap_ext
        intro q hq
        have hq2 : q.2 < h.cells.length := hvalid q (List.mem_cons_of_mem _ hq)
        simp only [PHeap.get]
        exact List.getElem?_append_left hq2
      simp only [deepcopyRefMap, PHeap.alloc, resolveMap, List.map_cons]
      simp only [resolveMap] at htail
      rw [hhead, htail]

theorem blockMatches_length (ecbs : List ExpectationConfigurationBuilder)
    (dom : Domain) (v : ParameterContainer) (m : ParamsMap)
    (block : List ExpectationConfiguration)
    (h : blockMatchesBuilders ecbs dom v m block) :
    block.length = ecbs.length := by
  induction ecbs generalizing block with
  | nil => cases block with
    | nil => rfl
    | cons c cs => simp [blockMatchesBuilders] at h
  | cons ecb rest ih =>
      cases block with
      | nil => simp [blockMatchesBuilders] at h
      | cons c cs =>
          obtain ⟨_, h2⟩ := h
          simp [ih cs h2]

theorem blocksMatch_length (ecbs : List ExpectationConfigurationBuilder)
    (v : ParameterContainer) (doms : List Domain)
    (blocks : List (List ExpectationConfiguration)) (ms : List ParamsMap)
    (h : blocksMatchDomains ecbs v doms blocks ms) :
    blocks.length = doms.length := by
  induction doms generalizing blocks ms with
  | nil =>
      cases blocks with
      | nil => rfl
      | cons b bs => cases ms <;> simp [blocksMatchDomains] at h
  | cons d rest ih =>
      cases blocks with
      | nil => cases ms <;> simp [blocksMatchDomains] at h
      | cons b bs =>
          cases ms with
          | nil => simp [blocksMatchDomains] at h
          | cons m ms' =>
              obtain ⟨_, h2⟩ := h
              simp [ih bs ms' h2]

theorem blocksMatch_each_length (ecbs : List ExpectationConfigurationBuilder)
    (v : ParameterContainer) (doms : List Domain)
    (blocks : List (List ExpectationConfiguration)) (ms : List ParamsMap)
    (h : blocksMatchDomains ecbs v doms blocks ms) :
    ∀ b ∈ blocks, b.length = ecbs.length := by
  induction doms generalizing blocks ms with
  | nil =>
      cases blocks with
      | nil => intro b hb; simp at hb
      | cons b bs => cases ms <;> simp [blocksMatchDomains] at h
  | cons d rest ih =>
      cases blocks with
      | nil => intro b hb; simp at hb
      | cons b bs =>
          cases ms with
          | nil => simp [blocksMatchDomains] at h
          | cons m ms' =>
              obtain ⟨h1, h2⟩ := h
              intro b' hb'
              rcases List.mem_cons.mp hb' with rfl | hb'
              · exact blockMatches_length ecbs d v m b' h1
              · exact ih bs ms' h2 b' hb'

theorem rcb_ok_matches (ecbs : List ExpectationConfigurationBuilder)
    (dIdx bIdx : Nat) (dom : Domain) (v : ParameterContainer) (p : ParamsMap)
    (cfgs : List ExpectationConfiguration)
    (h : (runConfigBuilders ecbs dIdx bIdx dom v p).1 = .ok cfgs) :
    blockMatchesBuilders ecbs dom v p cfgs := by
  induction ecbs generalizing bIdx cfgs with
  | nil =>
      simp only [runConfigBuilders] at h
      cases h
      trivial
  | cons ecb rest ih =>
      cases hb : ecb.build_expectation_configuration dom v p with
      | error e =>
          simp only [runConfigBuilders, hb] at h
          cases h
      | ok cfg =>
          simp only [runConfigBuilders, hb] at h
          cases hro : (runConfigBuilders rest dIdx (bIdx + 1) dom v p).1 with
          | error e => rw [hro] at h; cases h
          | ok cfgs' =>
              rw [hro] at h
              simp only [Except.map] at h
              cases h
              exact ⟨hb, ih (bIdx + 1) cfgs' hro⟩

theorem rd_ok_blocks_match (pbs : List ParameterBuilder)
    (ecbs : List ExpectationConfigurationBuilder) (doms : List Domain)
    (dIdx : Nat) (v : ParameterContainer) (p : ParamsMap)
    (cfgs : List ExpectationConfiguration)
    (h : (runDomains (some pbs) (some ecbs) doms dIdx v p).1 = .ok cfgs) :
    ∃ (blocks : List (List ExpectationConfiguration)) (ms : List ParamsMap),
      cfgs = blocks.flatten ∧ blocksMatchDomains ecbs v doms blocks ms := by
  induction doms generalizing dIdx p cfgs with
  | nil =>
      simp only [runDomains] at h
      cases h
      exact ⟨[], [], rfl, trivial⟩
  | cons d rest ih =>
      rcases hrp : runParamBuilders pbs dIdx 0 d v ⟨none⟩ (dictSet p d.id ⟨none⟩)
        with ⟨r1, p1, tr1⟩
      cases r1 with
      | error e => simp only [runDomains, hrp] at h; simp at h
      | ok c' =>
          rcases hrc : runConfigBuilders ecbs dIdx 0 d v p1 with ⟨r2, tr2⟩
          cases r2 with
          | error e => simp only [runDomains, hrp, hrc] at h; simp at h
          | ok cfgs1 =>
              simp only [runDomains, hrp, hrc] at h
              cases hro : (runDomains (some pbs) (some ecbs) rest (dIdx + 1) v p1).1 with
              | error e => rw [hro] at h; simp [Except.map] at h
              | ok cfgs2 =>
                  rw [hro] at h
                  simp only [Except.map] at h
                  cases h
                  obtain ⟨blocks, ms, hflat, hmatch⟩ := ih (dIdx + 1) p1 cfgs2 hro
                  have hblock : blockMatchesBuilders ecbs d v p1 cfgs1 :=
                    rcb_ok_matches ecbs dIdx 0 d v p1 cfgs1 (by rw [hrc])
                  exact ⟨cfgs1 :: blocks, p1 :: ms, by simp [List.flatten_cons, hflat],
                    hblock, hmatch⟩

theorem rpb_value_preserve_other (pbs : List ParameterBuilder) (dIdx bIdx : Nat)
    (dom : Domain) (v c : ParameterContainer) (p : ParamsMap) (k : String)
    (hk : k ≠ dom.id) :
    lookupKey (runParamBuilders pbs dIdx bIdx dom v c p).2.1 k = lookupKey p k := by
  induction pbs generalizing bIdx c p with
  | nil => simp [runParamBuilders]
  | cons pb rest ih =>
      cases hb : pb.build_parameters c dom v p with
      | error e => simp [runParamBuilders, hb]
      | ok c' =>
          simp only [runParamBuilders, hb]
          rw [ih (bIdx + 1) c' (dictSet p dom.id c')]
          exact lookupKey_dictSet_ne p dom.id k c' hk

theorem rd_error_state (pbs : List ParameterBuilder)
    (ecbs : List ExpectationConfigurationBuilder) (doms : List Domain)
    (dIdx : Nat) (v : ParameterContainer) (p : ParamsMap) (e : RuleError)
    (h : (runDomains (some pbs) (some ecbs) doms dIdx v p).1 = .error e) :
    ∃ (done : List Domain) (dFail : Domain) (rem : List Domain)
      (cfgsDone : List ExpectationConfiguration) (pDone : ParamsMap)
      (trDone : List Event),
      doms = done ++ dFail :: rem ∧
      runDomains (some pbs) (some ecbs) done dIdx v p =
        (.ok cfgsDone, pDone, trDone) ∧
      (runDomains (some pbs) (some ecbs) doms dIdx v p).2.1 =
        (runParamBuilders pbs (dIdx + done.length) 0 dFail v ⟨none⟩
          (dictSet pDone dFail.id ⟨none⟩)).2.1 := by
  induction doms generalizing dIdx p with
  | nil => simp [runDomains] at h
  | cons d rest ih =>
      rcases hrp : runParamBuilders pbs dIdx 0 d v ⟨none⟩ (dictSet p d.id ⟨none⟩)
        with ⟨r1, p1, tr1⟩
      cases r1 with
      | error e1 =>
          refine ⟨[], d, rest, [], p, [], rfl, by simp [runDomains], ?_⟩
          simp only [runDomains, hrp, List.length_nil, Nat.add_zero, hrp]
      | ok c' =>
          rcases hrc : runConfigBuilders ecbs dIdx 0 d v p1 with ⟨r2, tr2⟩
          cases r2 with
          | error e2 =>
              refine ⟨[], d, rest, [], p, [], rfl, by simp [runDomains], ?_⟩
              simp only [runDomains, hrp, hrc, List.length_nil, Nat.add_zero]
          | ok cfgs1 =>
              have hrest : (runDomains (some pbs) (some ecbs) rest (dIdx + 1) v p1).1 =
                  .error e := by
                simp only [runDomains, hrp, hrc] at h
                cases hro : (runDomains (some pbs) (some ecbs) rest (dIdx + 1) v p1).1 with
                | ok cfgs2 => rw [hro] at h; simp [Except.map] at h
                | error e3 =>
                    rw [hro] at h
                    simp only [Except.map] at h
                    injection h with h1
                    subst h1
                    rfl
              obtain ⟨done', dFail, rem, cfgsD, pD, trD, hsplit, hdone, hfinal⟩ :=
                ih (dIdx + 1) p1 hrest
              refine ⟨d :: done', dFail, rem, cfgs1 ++ cfgsD, pD, tr1 ++ tr2 ++ trD,
                by rw [hsplit]; rfl, ?_, ?_⟩
              · simp only [runDomains, hrp, hrc, hdone]
                simp [Except.map]
              · simp only [runDomains, hrp, hrc, List.length_cons]
                rw [hfinal]
                have harith : dIdx + 1 + done'.length = dIdx + (done'.length + 1) := by
                  omega
                rw [harith]

/-! ### Claim theorems -/

/-- Claim C1: for every state of a `Rule`, the public accessor
`Rule.parameters` (`return copy.deepcopy(self._parameters)`) returns a
structure equal in value to the internal domain-id-to-container map, and
any in-place mutation the caller performs on an object of the returned
structure leaves the internal map's denotation unchanged, so a subsequent
read of the internal state sees the same values — the accessor hands out a
deep, independent copy.  Stated over the heap model: the copy resolves to
the same values as the internal map, and writing any object reachable from
the copy does not change what the internal map resolves to. -/
theorem Rule_parameters_deepcopy_isolation (h : PHeap) (m : RefMap)
    (hvalid : ∀ q ∈ m, q.2 < h.cells.length) :
    resolveMap (parametersAccessor h m).1 (parametersAccessor h m).2 = resolveMap h m ∧
    ∀ q ∈ (parametersAccessor h m).2, ∀ c,
      resolveMap (PHeap.set (parametersAccessor h m).1 q.2 c) m = resolveMap h m := by
  constructor
  · exact dcm_values m h hvalid
  · intro q hq c
    have hfresh : h.cells.length ≤ q.2 := dcm_refs_fresh m h q hq
    have hset : resolveMap (PHeap.set (deepcopyRefMap h m).1 q.2 c) m =
        resolveMap (deepcopyRefMap h m).1 m := by
      apply resolveMap_ext
      intro q' hq'
      have hlt : q'.2 < h.cells.length := hvalid q' hq'
      have hne : q.2 ≠ q'.2 := by omega
      simp only [PHeap.set, PHeap.get]
      exact List.getElem?_set_ne hne
    have hold : resolveMap (deepcopyRefMap h m).1 m = resolveMap h m := by
      apply resolveMap_ext
      intro q' hq'
      exact dcm_get_old m h q'.2 (hvalid q' hq')
    exact hset.trans hold

/-- Witness for C1 at a concrete one-entry map. -/
theorem Rule_parameters_deepcopy_isolation_witness :
    (∀ q ∈ wRefMap, q.2 < wHeap.cells.length) ∧
    (resolveMap (parametersAccessor wHeap wRefMap).1 (parametersAccessor wHeap wRefMap).2 =
        resolveMap wHeap wRefMap ∧
      ∀ q ∈ (parametersAccessor wHeap wRefMap).2, ∀ c,
        resolveMap (PHeap.set (parametersAccessor wHeap wRefMap).1 q.2 c) wRefMap =
          resolveMap wHeap wRefMap) :=
  ⟨by decide, Rule_parameters_deepcopy_isolation wHeap wRefMap (by decide)⟩

/-- Claim C4: if domain discovery (`DomainBuilder.get_domains`) raises, then
`generate` propagates exactly that error, leaves the rule state (in
particular `_parameters`) untouched, and its trace consists of the single
discovery call — no `ParameterBuilder` (or any other builder) was invoked
and no parameter-map entry was created. -/
theorem generate_discovery_failure_aborts_early (rule : Rule)
    (vars? : Option ParameterContainer) (db : DomainBuilder) (e : RuleError)
    (h1 : rule.domain_builder = some db)
    (herr : db.get_domains (resolveVariables rule vars?) = .error e) :
    Rule.generate rule vars? =
      (.error e, rule, [Event.domainsCall db (resolveVariables rule vars?)]) := by
  simp [Rule.generate, h1, herr]

/-- Witness for C4 at a rule whose discovery raises. -/
theorem generate_discovery_failure_aborts_early_witness :
    (ruleDbFail.domain_builder = some dbFail ∧
      dbFail.get_domains (resolveVariables ruleDbFail (some vEmpty)) =
        .error (.builderFailure "introspection failed")) ∧
    Rule.generate ruleDbFail (some vEmpty) =
      (.error (.builderFailure "introspection failed"), ruleDbFail,
        [Event.domainsCall dbFail (resolveVariables ruleDbFail (some vEmpty))]) :=
  ⟨⟨rfl, rfl⟩,
    generate_discovery_failure_aborts_early ruleDbFail (some vEmpty) dbFail
      (.builderFailure "introspection failed") rfl rfl⟩

/-- Claim C8: `generate` with the `variables` argument omitted (`None`)
behaves exactly as when called with the owning profiler's stored
variables, and every builder invocation of the call — domain discovery,
every parameter builder, every configuration builder — receives the
resolved variables value. -/
theorem generate_variables_resolution (rule : Rule)
    (vars? : Option ParameterContainer) :
    Rule.generate rule none =
      Rule.generate rule (some rule.rule_based_profiler_variables) ∧
    ∀ ev ∈ (Rule.generate rule vars?).2.2,
      eventVariables ev = resolveVariables rule vars? := by
  constructor
  · rfl
  · intro ev hev
    cases hdb : rule.domain_builder with
    | none => simp [Rule.generate, hdb] at hev
    | some db =>
        cases hgd : db.get_domains (resolveVariables rule vars?) with
        | error e =>
            simp only [Rule.generate, hdb, hgd, List.mem_singleton] at hev
            subst hev
            rfl
        | ok doms =>
            simp only [Rule.generate, hdb, hgd, List.mem_cons] at hev
            rcases hev with rfl | hev
            · rfl
            · exact rd_events_vars rule.parameter_builders
                rule.expectation_configuration_builders doms 0
                (resolveVariables rule vars?) rule._parameters ev hev

/-- Witness for C8: the omitted-variables call on a concrete rule equals
the explicit call with the profiler's variables, and the recorded
discovery invocation received the resolved variables. -/
theorem generate_variables_resolution_witness :
    Rule.generate ruleOK none = Rule.generate ruleOK (some vEmpty) ∧
    eventVariables (Event.domainsCall dbTwo vEmpty) = resolveVariables ruleOK none :=
  ⟨(generate_variables_resolution ruleOK none).1,
    (generate_variables_resolution ruleOK none).2 (Event.domainsCall dbTwo vEmpty)
      (List.Mem.head _)⟩

/-- Claim C2: when `generate` succeeds, the returned list is exactly the
concatenation, over the discovered domains in the order the
`DomainBuilder` returned them, of one block per domain, where block `k`
belongs to domain `k` and holds, in the rule's declared builder order,
the successful output of each `ExpectationConfigurationBuilder` applied
to that domain (`blocksMatchDomains`); hence all configurations of an
earlier domain precede all configurations of a later domain, and the
list length is (number of domains) times (number of configuration
builders). -/
theorem generate_nested_order_and_length (rule : Rule)
    (vars? : Option ParameterContainer) (db : DomainBuilder)
    (pbs : List ParameterBuilder) (ecbs : List ExpectationConfigurationBuilder)
    (doms : List Domain) (cfgs : List ExpectationConfiguration)
    (h1 : rule.domain_builder = some db)
    (h2 : rule.parameter_builders = some pbs)
    (h3 : rule.expectation_configuration_builders = some ecbs)
    (hgd : db.get_domains (resolveVariables rule vars?) = .ok doms)
    (hok : (Rule.generate rule vars?).1 = .ok cfgs) :
    ∃ (blocks : List (List ExpectationConfiguration)) (ms : List ParamsMap),
      cfgs = blocks.flatten ∧
      blocksMatchDomains ecbs (resolveVariables rule vars?) doms blocks ms ∧
      blocks.length = doms.length ∧
      (∀ b ∈ blocks, b.length = ecbs.length) ∧
      cfgs.length = doms.length * ecbs.length := by
  have hrun : (runDomains (some pbs) (some ecbs) doms 0
      (resolveVariables rule vars?) rule._parameters).1 = .ok cfgs := by
    simp only [Rule.generate, h1, hgd, h2, h3] at hok
    exact hok
  obtain ⟨blocks, ms, hflat, hmatch⟩ :=
    rd_ok_blocks_match pbs ecbs doms 0 (resolveVariables rule vars?)
      rule._parameters cfgs hrun
  have hlen : blocks.length = doms.length :=
    blocksMatch_length ecbs (resolveVariables rule vars?) doms blocks ms hmatch
  have hall : ∀ b ∈ blocks, b.length = ecbs.length :=
    blocksMatch_each_length ecbs (resolveVariables rule vars?) doms blocks ms hmatch
  refine ⟨blocks, ms, hflat, hmatch, hlen, hall, ?_⟩
  rw [hflat, blocks_flatten_length blocks ecbs.length hall, hlen]

/-- Witness for C2 at a rule with two distinguishable domains and two
configuration builders: the returned list interleaves builder outputs in
domain-major, builder-minor order. -/
theorem generate_nested_order_and_length_witness :
    (ruleOrder.domain_builder = some dbOrder ∧
      ruleOrder.parameter_builders = some [pbConst] ∧
      ruleOrder.expectation_configuration_builders = some [ecbConst, ecbReadX] ∧
      dbOrder.get_domains (resolveVariables ruleOrder (some vEmpty)) =
        .ok [dA, dLong] ∧
      (Rule.generate ruleOrder (some vEmpty)).1 = .ok wOrderCfgs) ∧
    ∃ (blocks : List (List ExpectationConfiguration)) (ms : List ParamsMap),
      wOrderCfgs = blocks.flatten ∧
      blocksMatchDomains [ecbConst, ecbReadX]
        (resolveVariables ruleOrder (some vEmpty)) [dA, dLong] blocks ms ∧
      blocks.length = ([dA, dLong] : List Domain).length ∧
      (∀ b ∈ blocks,
        b.length = ([ecbConst, ecbReadX] : List ExpectationConfigurationBuilder).length) ∧
      wOrderCfgs.length = ([dA, dLong] : List Domain).length *
        ([ecbConst, ecbReadX] : List ExpectationConfigurationBuilder).length :=
  ⟨⟨rfl, rfl, rfl, rfl, rfl⟩,
    generate_nested_order_and_length ruleOrder (some vEmpty) dbOrder [pbConst]
      [ecbConst, ecbReadX] [dA, dLong] wOrderCfgs rfl rfl rfl rfl rfl⟩

/-- Claim C5: on a successful `generate` call the invocation trace is
exactly: the single domain-discovery call, then, for each domain in
order, first all parameter builders at positions `0, 1, …` in declared
order and only afterwards all configuration builders at positions
`0, 1, …` in declared order — no configuration builder for a domain runs
while a parameter builder for that domain has yet to run. -/
theorem generate_two_phase_order (rule : Rule)
    (vars? : Option ParameterContainer) (db : DomainBuilder)
    (pbs : List ParameterBuilder) (ecbs : List ExpectationConfigurationBuilder)
    (doms : List Domain) (cfgs : List ExpectationConfiguration)
    (h1 : rule.domain_builder = some db)
    (h2 : rule.parameter_builders = some pbs)
    (h3 : rule.expectation_configuration_builders = some ecbs)
    (hgd : db.get_domains (resolveVariables rule vars?) = .ok doms)
    (hok : (Rule.generate rule vars?).1 = .ok cfgs) :
    ((Rule.generate rule vars?).2.2).map Event.shape =
      EventShape.domainsShape :: domainShapes pbs.length ecbs.length 0 doms.length := by
  have hrun : (runDomains (some pbs) (some ecbs) doms 0
      (resolveVariables rule vars?) rule._parameters).1 = .ok cfgs := by
    simp only [Rule.generate, h1, hgd, h2, h3] at hok
    exact hok
  simp only [Rule.generate, h1, hgd, h2, h3, List.map_cons]
  rw [rd_ok_shape pbs ecbs doms 0 (resolveVariables rule vars?) rule._parameters cfgs hrun]
  rfl

/-- Witness for C5 at a two-domain rule with one builder of each kind. -/
theorem generate_two_phase_order_witness :
    (ruleOK.domain_builder = some dbTwo ∧
      ruleOK.parameter_builders = some [pbConst] ∧
      ruleOK.expectation_configuration_builders = some [ecbConst] ∧
      dbTwo.get_domains (resolveVariables ruleOK (some vEmpty)) = .ok [dA, dB] ∧
      (Rule.generate ruleOK (some vEmpty)).1 = .ok wCfgs) ∧
    ((Rule.generate ruleOK (some vEmpty)).2.2).map Event.shape =
      EventShape.domainsShape :: domainShapes 1 1 0 2 :=
  ⟨⟨rfl, rfl, rfl, rfl, rfl⟩,
    generate_two_phase_order ruleOK (some vEmpty) dbTwo [pbConst] [ecbConst]
      [dA, dB] wCfgs rfl rfl rfl rfl rfl⟩

/-- Claim C3: if any builder invocation raises during `generate`, the call
returns no configuration list at all — its result is exactly the raised
error, every invocation before the failing one completed successfully, and
the failing invocation is the last event of the trace (nothing after it
ran; no partial list is handed out). -/
theorem generate_error_propagation (rule : Rule)
    (vars? : Option ParameterContainer) (db : DomainBuilder)
    (pbs : List ParameterBuilder) (ecbs : List ExpectationConfigurationBuilder)
    (e : RuleError)
    (h1 : rule.domain_builder = some db)
    (h2 : rule.parameter_builders = some pbs)
    (h3 : rule.expectation_configuration_builders = some ecbs)
    (herr : (Rule.generate rule vars?).1 = .error e) :
    (∀ l, (Rule.generate rule vars?).1 ≠ .ok l) ∧
    ∃ pre lev, (Rule.generate rule vars?).2.2 = pre ++ [lev] ∧
      (∀ ev ∈ pre, Event.eval ev = .ok ()) ∧ Event.eval lev = .error e := by
  refine ⟨fun l hl => (by rw [herr] at hl; cases hl), ?_⟩
  cases hgd : db.get_domains (resolveVariables rule vars?) with
  | error e' =>
      have hgen : Rule.generate rule vars? =
          (.error e', rule, [Event.domainsCall db (resolveVariables rule vars?)]) := by
        simp [Rule.generate, h1, hgd]
      rw [hgen] at herr
      injection herr with herr1
      subst herr1
      refine ⟨[], Event.domainsCall db (resolveVariables rule vars?), ?_, by simp, ?_⟩
      · rw [hgen]
        rfl
      · simp [Event.eval, hgd, Except.map]
  | ok doms =>
      have hrun : (runDomains (some pbs) (some ecbs) doms 0
          (resolveVariables rule vars?) rule._parameters).1 = .error e := by
        simp only [Rule.generate, h1, hgd, h2, h3] at herr
        exact herr
      obtain ⟨pre, lev, htr, hpre, hlev⟩ :=
        rd_error_split pbs ecbs doms 0 (resolveVariables rule vars?) rule._parameters e hrun
      refine ⟨Event.domainsCall db (resolveVariables rule vars?) :: pre, lev, ?_, ?_, hlev⟩
      · simp only [Rule.generate, h1, hgd, h2, h3]
        rw [htr]
        rfl
      · intro ev hev
        rcases List.mem_cons.mp hev with rfl | hev
        · simp [Event.eval, hgd, Except.map]
        · exact hpre ev hev

/-- Witness for C3 at a rule whose parameter builder raises on the second
domain. -/
theorem generate_error_propagation_witness :
    (ruleFail.domain_builder = some dbTwo ∧
      ruleFail.parameter_builders = some [pbFailOnB] ∧
      ruleFail.expectation_configuration_builders = some [ecbConst] ∧
      (Rule.generate ruleFail (some vEmpty)).1 = .error (.builderFailure "boom")) ∧
    ((∀ l, (Rule.generate ruleFail (some vEmpty)).1 ≠ .ok l) ∧
      ∃ pre lev, (Rule.generate ruleFail (some vEmpty)).2.2 = pre ++ [lev] ∧
        (∀ ev ∈ pre, Event.eval ev = .ok ()) ∧
        Event.eval lev = .error (.builderFailure "boom")) :=
  ⟨⟨rfl, rfl, rfl, rfl⟩,
    generate_error_propagation ruleFail (some vEmpty) dbTwo [pbFailOnB] [ecbConst]
      (.builderFailure "boom") rfl rfl rfl rfl⟩

/-- Claim C6: for every domain processed by a successful `generate` call,
the fresh empty container is registered in the rule's parameter map under
the domain's id before any builder of that domain runs (the first
parameter builder observes the empty container already registered, and
every builder invocation's snapshot holds an entry for its own domain and
for every domain processed so far), and after the call completes the map
retains an entry for every processed domain, visible through
`Rule.parameters`. -/
theorem generate_registers_container_first (rule : Rule)
    (vars? : Option ParameterContainer) (db : DomainBuilder)
    (pbs : List ParameterBuilder) (ecbs : List ExpectationConfigurationBuilder)
    (doms : List Domain) (cfgs : List ExpectationConfiguration)
    (h1 : rule.domain_builder = some db)
    (h2 : rule.parameter_builders = some pbs)
    (h3 : rule.expectation_configuration_builders = some ecbs)
    (hgd : db.get_domains (resolveVariables rule vars?) = .ok doms)
    (hok : (Rule.generate rule vars?).1 = .ok cfgs) :
    (∀ ev ∈ (Rule.generate rule vars?).2.2,
      eventSnapshotHasIds doms ev ∧ eventFreshAtStart ev) ∧
    ∀ d ∈ doms,
      (lookupKey (Rule.parameters (Rule.generate rule vars?).2.1) d.id).isSome = true := by
  have hrun : (runDomains (some pbs) (some ecbs) doms 0
      (resolveVariables rule vars?) rule._parameters).1 = .ok cfgs := by
    simp only [Rule.generate, h1, hgd, h2, h3] at hok
    exact hok
  constructor
  · intro ev hev
    simp only [Rule.generate, h1, hgd, h2, h3, List.mem_cons] at hev
    rcases hev with rfl | hev
    · exact ⟨trivial, trivial⟩
    · constructor
      · exact rd_snapshot pbs ecbs doms (resolveVariables rule vars?) doms 0
          rule._parameters (by simp) (by simp) ev hev
      · exact rd_fresh pbs ecbs doms 0 (resolveVariables rule vars?)
          rule._parameters ev hev
  · intro d hd
    have hreg := rd_ok_domains_ids pbs ecbs doms 0 (resolveVariables rule vars?)
      rule._parameters cfgs hrun d hd
    have h21 : (Rule.generate rule vars?).2.1._parameters =
        (runDomains (some pbs) (some ecbs) doms 0 (resolveVariables rule vars?)
          rule._parameters).2.1 := by
      simp [Rule.generate, h1, hgd, h2, h3]
    simp only [Rule.parameters, h21]
    exact hreg

/-- Witness for C6: the first parameter-builder invocation of `ruleOK`
observes the freshly registered empty container, and both domain ids stay
registered after the call. -/
theorem generate_registers_container_first_witness :
    (ruleOK.domain_builder = some dbTwo ∧
      ruleOK.parameter_builders = some [pbConst] ∧
      ruleOK.expectation_configuration_builders = some [ecbConst] ∧
      dbTwo.get_domains (resolveVariables ruleOK (some vEmpty)) = .ok [dA, dB] ∧
      (Rule.generate ruleOK (some vEmpty)).1 = .ok wCfgs) ∧
    (eventSnapshotHasIds [dA, dB]
        (Event.paramCall 0 0 pbConst ⟨none⟩ dA vEmpty [("dA", ⟨none⟩)]) ∧
      eventFreshAtStart
        (Event.paramCall 0 0 pbConst ⟨none⟩ dA vEmpty [("dA", ⟨none⟩)])) ∧
    (lookupKey (Rule.parameters (Rule.generate ruleOK (some vEmpty)).2.1) dA.id).isSome
      = true :=
  ⟨⟨rfl, rfl, rfl, rfl, rfl⟩,
    (generate_registers_container_first ruleOK (some vEmpty) dbTwo [pbConst] [ecbConst]
        [dA, dB] wCfgs rfl rfl rfl rfl rfl).1
      (Event.paramCall 0 0 pbConst ⟨none⟩ dA vEmpty [("dA", ⟨none⟩)])
      (List.Mem.tail _ (List.Mem.head _)),
    (generate_registers_container_first ruleOK (some vEmpty) dbTwo [pbConst] [ecbConst]
        [dA, dB] wCfgs rfl rfl rfl rfl rfl).2 dA (List.Mem.head _)⟩

/-- Claim C9: when `generate` aborts with an error after discovery
succeeded, the rule's parameter map is not rolled back.  The domain list
splits as `done ++ dFail :: rem`: the domains in `done` were processed to
completion, and the final map visible through `Rule.parameters` is
exactly the honestly computed post-state of fully processing `done`
(`pDone`) updated only at the failing domain's id by its (possibly
partial) parameter phase — value-for-value, every key other than
`dFail.id` still holds its `pDone` value (so the fully populated
containers of the completed domains and every pre-call entry survive),
and the failing domain's container is registered too. -/
theorem generate_error_keeps_parameter_map (rule : Rule)
    (vars? : Option ParameterContainer) (db : DomainBuilder)
    (pbs : List ParameterBuilder) (ecbs : List ExpectationConfigurationBuilder)
    (doms : List Domain) (e : RuleError)
    (h1 : rule.domain_builder = some db)
    (h2 : rule.parameter_builders = some pbs)
    (h3 : rule.expectation_configuration_builders = some ecbs)
    (hgd : db.get_domains (resolveVariables rule vars?) = .ok doms)
    (herr : (Rule.generate rule vars?).1 = .error e) :
    (∀ k, (lookupKey rule._parameters k).isSome = true →
      (lookupKey (Rule.parameters (Rule.generate rule vars?).2.1) k).isSome = true) ∧
    (∀ ev ∈ (Rule.generate rule vars?).2.2, ∀ dom, eventDomain ev = some dom →
      (lookupKey (Rule.parameters (Rule.generate rule vars?).2.1) dom.id).isSome
        = true) ∧
    ∃ (done : List Domain) (dFail : Domain) (rem : List Domain)
      (cfgsDone : List ExpectationConfiguration) (pDone : ParamsMap)
      (trDone : List Event),
      doms = done ++ dFail :: rem ∧
      runDomains (some pbs) (some ecbs) done 0 (resolveVariables rule vars?)
        rule._parameters = (.ok cfgsDone, pDone, trDone) ∧
      Rule.parameters (Rule.generate rule vars?).2.1 =
        (runParamBuilders pbs done.length 0 dFail (resolveVariables rule vars?)
          ⟨none⟩ (dictSet pDone dFail.id ⟨none⟩)).2.1 ∧
      (∀ k, k ≠ dFail.id →
        lookupKey (Rule.parameters (Rule.generate rule vars?).2.1) k =
          lookupKey pDone k) ∧
      (lookupKey (Rule.parameters (Rule.generate rule vars?).2.1) dFail.id).isSome
        = true := by
  have hrun : (runDomains (some pbs) (some ecbs) doms 0
      (resolveVariables rule vars?) rule._parameters).1 = .error e := by
    simp only [Rule.generate, h1, hgd, h2, h3] at herr
    exact herr
  have h21 : (Rule.generate rule vars?).2.1._parameters =
      (runDomains (some pbs) (some ecbs) doms 0 (resolveVariables rule vars?)
        rule._parameters).2.1 := by
    simp [Rule.generate, h1, hgd, h2, h3]
  refine ⟨?_, ?_, ?_⟩
  · intro k hk
    simp only [Rule.parameters, h21]
    exact rd_result_preserve pbs ecbs doms 0 (resolveVariables rule vars?)
      rule._parameters k hk
  · intro ev hev dom hdom
    simp only [Rule.generate, h1, hgd, h2, h3, List.mem_cons] at hev
    rcases hev with rfl | hev
    · simp [eventDomain] at hdom
    · simp only [Rule.parameters, h21]
      exact rd_event_domain_in_final pbs ecbs doms 0 (resolveVariables rule vars?)
        rule._parameters ev hev dom hdom
  · obtain ⟨done, dFail, rem, cfgsDone, pDone, trDone, hsplit, hdone, hfinal⟩ :=
      rd_error_state pbs ecbs doms 0 (resolveVariables rule vars?)
        rule._parameters e hrun
    rw [Nat.zero_add] at hfinal
    refine ⟨done, dFail, rem, cfgsDone, pDone, trDone, hsplit, hdone, ?_, ?_, ?_⟩
    · simp only [Rule.parameters, h21]
      exact hfinal
    · intro k hk
      simp only [Rule.parameters, h21]
      rw [hfinal, rpb_value_preserve_other pbs done.length 0 dFail
        (resolveVariables rule vars?) ⟨none⟩ (dictSet pDone dFail.id ⟨none⟩) k hk]
      exact lookupKey_dictSet_ne pDone dFail.id k ⟨none⟩ hk
    · simp only [Rule.parameters, h21]
      rw [hfinal]
      exact rpb_result_preserve pbs done.length 0 dFail (resolveVariables rule vars?)
        ⟨none⟩ (dictSet pDone dFail.id ⟨none⟩) dFail.id
        (by rw [lookupKey_dictSet_self]; rfl)

/-- Witness for C9: after the aborted call on `ruleFail` (its parameter
builder raises on `dB`), the completed domain `dA` still holds its fully
populated container `{x = 1}` and the failing domain `dB` its partially
populated (here still empty) container, both read back with their exact
values through `Rule.parameters`. -/
theorem generate_error_keeps_parameter_map_witness :
    (ruleFail.domain_builder = some dbTwo ∧
      ruleFail.parameter_builders = some [pbFailOnB] ∧
      ruleFail.expectation_configuration_builders = some [ecbConst] ∧
      dbTwo.get_domains (resolveVariables ruleFail (some vEmpty)) = .ok [dA, dB] ∧
      (Rule.generate ruleFail (some vEmpty)).1 = .error (.builderFailure "boom")) ∧
    (∃ (done : List Domain) (dFail : Domain) (rem : List Domain)
      (cfgsDone : List ExpectationConfiguration) (pDone : ParamsMap)
      (trDone : List Event),
      ([dA, dB] : List Domain) = done ++ dFail :: rem ∧
      runDomains (some [pbFailOnB]) (some [ecbConst]) done 0
        (resolveVariables ruleFail (some vEmpty)) ruleFail._parameters =
        (.ok cfgsDone, pDone, trDone) ∧
      Rule.parameters (Rule.generate ruleFail (some vEmpty)).2.1 =
        (runParamBuilders [pbFailOnB] done.length 0 dFail
          (resolveVariables ruleFail (some vEmpty)) ⟨none⟩
          (dictSet pDone dFail.id ⟨none⟩)).2.1 ∧
      (∀ k, k ≠ dFail.id →
        lookupKey (Rule.parameters (Rule.generate ruleFail (some vEmpty)).2.1) k =
          lookupKey pDone k) ∧
      (lookupKey (Rule.parameters (Rule.generate ruleFail (some vEmpty)).2.1)
        dFail.id).isSome = true) ∧
    lookupKey (Rule.parameters (Rule.generate ruleFail (some vEmpty)).2.1) "dA" =
      some ⟨some [("x", 1)]⟩ ∧
    lookupKey (Rule.parameters (Rule.generate ruleFail (some vEmpty)).2.1) "dB" =
      some ⟨none⟩ :=
  ⟨⟨rfl, rfl, rfl, rfl, rfl⟩,
    (generate_error_keeps_parameter_map ruleFail (some vEmpty) dbTwo [pbFailOnB]
        [ecbConst] [dA, dB] (.builderFailure "boom") rfl rfl rfl rfl rfl).2.2,
    rfl, rfl⟩

/-- Counterexample to claim C7 as stated: two `generate` calls on the same
`Rule` with identical variables and builders that are deterministic
functions of their arguments can return different configuration lists,
because `_parameters` persists across calls and is passed back into the
builders — the second call's snapshots already contain the first call's
entries. -/
theorem generate_repeat_call_changes_output :
    (Rule.generate ruleSense (some vEmpty)).1 = .ok wFirst ∧
    (Rule.generate ((Rule.generate ruleSense (some vEmpty)).2.1) (some vEmpty)).1 =
      .ok wSecond ∧
    wFirst ≠ wSecond :=
  ⟨rfl, rfl, by decide⟩

/-- The `generate` call never changes the rule's builder fields or the
profiler back reference; only `_parameters` can change. -/
theorem generate_preserves_fields (rule : Rule) (vars? : Option ParameterContainer) :
    (Rule.generate rule vars?).2.1.domain_builder = rule.domain_builder ∧
    (Rule.generate rule vars?).2.1.parameter_builders = rule.parameter_builders ∧
    (Rule.generate rule vars?).2.1.expectation_configuration_builders =
      rule.expectation_configuration_builders ∧
    (Rule.generate rule vars?).2.1.rule_based_profiler_variables =
      rule.rule_based_profiler_variables := by
  cases hdb : rule.domain_builder with
  | none => simp [Rule.generate, hdb]
  | some db =>
      cases hgd : db.get_domains (resolveVariables rule vars?) with
      | error e => simp [Rule.generate, hdb, hgd]
      | ok doms => simp [Rule.generate, hdb, hgd]

/-- When no builder reads the `parameters` snapshot, the configuration
list `generate` returns does not depend on the rule's accumulated
`_parameters` state: two rules agreeing on everything except
`_parameters` produce equal results. -/
theorem generate_fst_params_indep (rule rule2 : Rule)
    (vars? : Option ParameterContainer) (db : DomainBuilder)
    (pbs : List ParameterBuilder) (ecbs : List ExpectationConfigurationBuilder)
    (h1 : rule.domain_builder = some db) (h1b : rule2.domain_builder = some db)
    (h2 : rule.parameter_builders = some pbs)
    (h2b : rule2.parameter_builders = some pbs)
    (h3 : rule.expectation_configuration_builders = some ecbs)
    (h3b : rule2.expectation_configuration_builders = some ecbs)
    (hpv : rule2.rule_based_profiler_variables = rule.rule_based_profiler_variables)
    (hpb : ∀ pb ∈ pbs, ∀ cc dd vv m m',
      pb.build_parameters cc dd vv m = pb.build_parameters cc dd vv m')
    (hecb : ∀ ecb ∈ ecbs, ∀ dd vv m m',
      ecb.build_expectation_configuration dd vv m =
        ecb.build_expectation_configuration dd vv m') :
    (Rule.generate rule2 vars?).1 = (Rule.generate rule vars?).1 := by
  have hrv : resolveVariables rule2 vars? = resolveVariables rule vars? := by
    cases vars? with
    | none => simp [resolveVariables, hpv]
    | some v => rfl
  cases hgd : db.get_domains (resolveVariables rule vars?) with
  | error e => simp [Rule.generate, h1, h1b, hrv, hgd]
  | ok doms =>
      simp only [Rule.generate, h1, h1b, hrv, hgd, h2, h2b, h3, h3b]
      exact rd_params_indep pbs ecbs doms 0 (resolveVariables rule vars?)
        rule2._parameters rule._parameters hpb hecb

/-- Claim C7 as amended: two `generate` calls on the same `Rule` with
identical variables return identical ordered configuration lists provided
no builder's output depends on the accumulated cross-domain `parameters`
snapshot; without that proviso the parameter map retained from the first
call can change the second call's output (see the counterexample). -/
theorem generate_deterministic_when_snapshot_independent (rule : Rule)
    (vars? : Option ParameterContainer) (db : DomainBuilder)
    (pbs : List ParameterBuilder) (ecbs : List ExpectationConfigurationBuilder)
    (h1 : rule.domain_builder = some db)
    (h2 : rule.parameter_builders = some pbs)
    (h3 : rule.expectation_configuration_builders = some ecbs)
    (hpb : ∀ pb ∈ pbs, ∀ cc dd vv m m',
      pb.build_parameters cc dd vv m = pb.build_parameters cc dd vv m')
    (hecb : ∀ ecb ∈ ecbs, ∀ dd vv m m',
      ecb.build_expectation_configuration dd vv m =
        ecb.build_expectation_configuration dd vv m') :
    (Rule.generate ((Rule.generate rule vars?).2.1) vars?).1 =
      (Rule.generate rule vars?).1 := by
  obtain ⟨f1, f2, f3, f4⟩ := generate_preserves_fields rule vars?
  exact generate_fst_params_indep rule ((Rule.generate rule vars?).2.1) vars? db pbs
    ecbs h1 (by rw [f1, h1]) h2 (by rw [f2, h2]) h3 (by rw [f3, h3]) f4 hpb hecb

/-- Witness for the amended C7 at a rule whose builders ignore the
snapshot: a repeated call returns the same list. -/
theorem generate_deterministic_when_snapshot_independent_witness :
    (ruleOK.domain_builder = some dbTwo ∧
      ruleOK.parameter_builders = some [pbConst] ∧
      ruleOK.expectation_configuration_builders = some [ecbConst]) ∧
    (Rule.generate ((Rule.generate ruleOK (some vEmpty)).2.1) (some vEmpty)).1 =
      (Rule.generate ruleOK (some vEmpty)).1 :=
  ⟨⟨rfl, rfl, rfl⟩,
    generate_deterministic_when_snapshot_independent ruleOK (some vEmpty) dbTwo
      [pbConst] [ecbConst] rfl rfl rfl
      (by
        intro pb hpb cc dd vv m m'
        rcases List.mem_singleton.mp hpb with rfl
        rfl)
      (by
        intro ecb hecb dd vv m m'
        rcases List.mem_singleton.mp hecb with rfl
        rfl)⟩

/-- Counterexample to claim C10 as stated: a rule left with the
constructor defaults `parameter_builders=None` and
`expectation_configuration_builders=None` does not make every `generate`
call raise — when domain discovery returns no domains, the `None` builder
lists are never iterated and `generate` returns the empty list. -/
theorem generate_none_defaults_counterexample :
    ruleNoneBuilders.parameter_builders = none ∧
    ruleNoneBuilders.expectation_configuration_builders = none ∧
    (Rule.generate ruleNoneBuilders (some vEmpty)).1 = .ok [] :=
  ⟨rfl, rfl, rfl⟩

/-- Claim C10 as amended: with `domain_builder` left `None`, every
`generate` call raises (the attribute dereference happens
unconditionally); with `parameter_builders` left `None`, `generate`
raises whenever discovery produces at least one domain (the `None` list
is iterated at the first domain); with `expectation_configuration_builders`
left `None`, `generate` raises whenever discovery produces at least one
domain and that domain's parameter phase completes.  With zero domains
the `None` builder lists are never reached and `generate` returns `[]`. -/
theorem generate_none_defaults_raise :
    (∀ (rule : Rule) (vars? : Option ParameterContainer),
      rule.domain_builder = none →
      (Rule.generate rule vars?).1 = .error (.attributeError "get_domains")) ∧
    (∀ (rule : Rule) (vars? : Option ParameterContainer) (db : DomainBuilder)
      (d : Domain) (ds : List Domain),
      rule.domain_builder = some db → rule.parameter_builders = none →
      db.get_domains (resolveVariables rule vars?) = .ok (d :: ds) →
      (Rule.generate rule vars?).1 =
        .error (.typeError "NoneType object is not iterable")) ∧
    (∀ (rule : Rule) (vars? : Option ParameterContainer) (db : DomainBuilder)
      (pbs : List ParameterBuilder) (d : Domain) (ds : List Domain)
      (c1 : ParameterContainer) (p1 : ParamsMap) (tr1 : List Event),
      rule.domain_builder = some db → rule.parameter_builders = some pbs →
      rule.expectation_configuration_builders = none →
      db.get_domains (resolveVariables rule vars?) = .ok (d :: ds) →
      runParamBuilders pbs 0 0 d (resolveVariables rule vars?) ⟨none⟩
        (dictSet rule._parameters d.id ⟨none⟩) = (.ok c1, p1, tr1) →
      (Rule.generate rule vars?).1 =
        .error (.typeError "NoneType object is not iterable")) := by
  refine ⟨?_, ?_, ?_⟩
  · intro rule vars? h1
    simp [Rule.generate, h1]
  · intro rule vars? db d ds h1 h2 hgd
    simp [Rule.generate, h1, h2, hgd, runDomains]
  · intro rule vars? db pbs d ds c1 p1 tr1 h1 h2 h3 hgd hrp
    simp [Rule.generate, h1, h2, h3, hgd, runDomains, hrp]

/-- Witness for the amended C10: the rule with `parameter_builders=None`
and two discovered domains raises the iteration error. -/
theorem generate_none_defaults_raise_witness :
    (ruleNoneBuildersTwo.domain_builder = some dbTwo ∧
      ruleNoneBuildersTwo.parameter_builders = none ∧
      dbTwo.get_domains (resolveVariables ruleNoneBuildersTwo (some vEmpty)) =
        .ok [dA, dB]) ∧
    (Rule.generate ruleNoneBuildersTwo (some vEmpty)).1 =
      .error (.typeError "NoneType object is not iterable") :=
  ⟨⟨rfl, rfl, rfl⟩,
    generate_none_defaults_raise.2.1 ruleNoneBuildersTwo (some vEmpty) dbTwo dA [dB]
      rfl rfl rfl⟩
